import Mathlib

set_option autoImplicit false
set_option maxRecDepth 8000

namespace WebIntel

/-!
Shallow embedding of the web-intel content-acquisition pipeline
(`src/plugins/web-intel/scripts/_shared/`) of the Roxabi/roxabi-plugins
repository, together with theorems settling the frozen claims about it.

Strings are modeled over `List Char`; Python string primitives
(`str.lower`, `str.strip`, `str.replace`, `str.split`, ...) are embedded
explicitly for the ASCII fragment the code manipulates.  Python floats
(retry delays) are modeled as rationals; cache timestamps as integers.
-/

/-! ## Models of Python string primitives -/

/-- ASCII whitespace (space, tab, LF, CR, VT, FF), the characters
`str.strip` and regex `\s` treat as whitespace for the ASCII fragment. -/
def isWsAsc (c : Char) : Bool :=
  c.toNat = 32 || c.toNat = 9 || c.toNat = 10 || c.toNat = 13 || c.toNat = 11 || c.toNat = 12

/-- Model of Python `str.lower` on a single ASCII character. -/
def pyLowerChar (c : Char) : Char :=
  if 65 ≤ c.toNat ∧ c.toNat ≤ 90 then Char.ofNat (c.toNat + 32) else c

/-- Model of Python `str.lower` (ASCII fragment). -/
def pyLowerL (l : List Char) : List Char := l.map pyLowerChar

/-- Model of Python `str.strip()` with no argument. -/
def pyStripL (l : List Char) : List Char :=
  ((l.dropWhile isWsAsc).reverse.dropWhile isWsAsc).reverse

/-- Model of Python `str.rstrip(chars)` for a single strip character. -/
def pyRstripCh (ch : Char) (l : List Char) : List Char :=
  (l.reverse.dropWhile (fun c => c = ch)).reverse

/-- Model of Python `str.split(sep)` for a one-character separator:
splits at every occurrence, keeping empty pieces. -/
def splitOnCh (sep : Char) : List Char → List (List Char)
  | [] => [[]]
  | c :: rest =>
    let r := splitOnCh sep rest
    if c = sep then [] :: r
    else
      match r with
      | g :: gs => (c :: g) :: gs
      | [] => [[c]]

/-- Model of Python `str.replace(pat, repl)` (all non-overlapping
occurrences, scanning left to right, continuing after each replacement).
The fuel argument is the length of the scanned list. -/
def pyReplaceF (pat repl : List Char) : Nat → List Char → List Char
  | 0, l => l
  | fuel + 1, l =>
    match l with
    | [] => []
    | c :: rest =>
      if pat ≠ [] ∧ pat.isPrefixOf l then
        repl ++ pyReplaceF pat repl fuel (l.drop pat.length)
      else
        c :: pyReplaceF pat repl fuel rest

def pyReplaceL (pat repl l : List Char) : List Char :=
  pyReplaceF pat repl l.length l

/-- Model of Python `sub in s` (substring containment). -/
def containsSub : List Char → List Char → Bool
  | _, [] => true
  | [], _ => false
  | c :: rest, pat => pat.isPrefixOf (c :: rest) || containsSub rest pat

/-- Model of Python `s.split(sep, 1)` for a multi-character separator:
returns the part before the first occurrence and the part after it,
or `none` when the separator does not occur. -/
def splitOnce (sep : List Char) : List Char → Option (List Char × List Char)
  | [] => none
  | c :: rest =>
    if sep.isPrefixOf (c :: rest) then some ([], (c :: rest).drop sep.length)
    else
      match splitOnce sep rest with
      | some (a, b) => some (c :: a, b)
      | none => none

/-- Characters up to (excluding) the first occurrence of `ch`. -/
def takeUntilCh (ch : Char) (l : List Char) : List Char :=
  l.takeWhile (fun c => c ≠ ch)

/-- Characters after the first occurrence of `ch` (everything, when absent). -/
def dropThroughCh (ch : Char) (l : List Char) : List Char :=
  (l.dropWhile (fun c => c ≠ ch)).drop 1

/-- Model of Python `s.rsplit(sep, 1)[0]` for a one-character separator:
everything before the last occurrence of `sep` (the whole list when
`sep` is absent). -/
def dropAfterLastCh (ch : Char) (l : List Char) : List Char :=
  if l.contains ch then ((l.reverse.dropWhile (fun c => c ≠ ch)).drop 1).reverse
  else l

/-- Model of Python `s.split(sep)[-1]` for a one-character separator:
everything after the last occurrence of `sep`. -/
def takeAfterLastCh (ch : Char) (l : List Char) : List Char :=
  (l.reverse.takeWhile (fun c => c ≠ ch)).reverse

def isDigitAsc (c : Char) : Bool := 48 ≤ c.toNat && c.toNat ≤ 57

def isAlphaAsc (c : Char) : Bool :=
  (97 ≤ c.toNat && c.toNat ≤ 122) || (65 ≤ c.toNat && c.toNat ≤ 90)

def isHexDigitAsc (c : Char) : Bool :=
  isDigitAsc c || (97 ≤ c.toNat && c.toNat ≤ 102) || (65 ≤ c.toNat && c.toNat ≤ 70)

/-! ## Retry engine — model of `_shared/retry.py` -/

/-- HTTP status codes considered transient (retryable), `retry.py` line 41. -/
def TRANSIENT_STATUS_CODES : List Nat := [429, 500, 502, 503, 504]

/-- HTTP status codes documented as permanent (NOT retryable), `retry.py` line 44. -/
def PERMANENT_STATUS_CODES : List Nat := [400, 401, 403, 404]

/-- Model of the Python exception values that can flow through
`retry_call`.  `httpError none` is an `HTTPError` whose `response` is
`None`; `httpError (some s)` carries `response.status_code = s`. -/
inductive PyExc where
  | reqConnectionError
  | reqTimeout
  | httpError (status : Option Nat)
  | connectionError
  | timeoutError
  | osError
  | valueError (msg : String)
  | urlValidationError (msg : String)
  | ssrfError (msg : String)
  | contentSizeError (msg : String)
  | otherExc (msg : String)
deriving DecidableEq, Repr

/-- Model of `isinstance(e, TRANSIENT_EXCEPTIONS)` where
`TRANSIENT_EXCEPTIONS = (requests.exceptions.ConnectionError,
requests.exceptions.Timeout, ConnectionError, TimeoutError, OSError)`
(`retry.py` lines 47-53).

Class hierarchy facts this encodes: `requests.exceptions.RequestException`
is declared as `class RequestException(IOError)` in every requests 2.x
release, and in Python 3 `IOError` is an alias of `OSError`.  Hence
`requests.exceptions.HTTPError`, `ConnectionError` and `Timeout` (all
subclasses of `RequestException`) are instances of `OSError` and match
the tuple.  The repository exceptions (`URLValidationError`,
`SSRFError`, `ContentSizeError`) derive from `Exception` only, and
`ValueError` and friends are not `OSError`s, so they do not match. -/
def matchesTransientExceptions : PyExc → Bool
  | .reqConnectionError => true
  | .reqTimeout => true
  | .httpError _ => true
  | .connectionError => true
  | .timeoutError => true
  | .osError => true
  | .valueError _ => false
  | .urlValidationError _ => false
  | .ssrfError _ => false
  | .contentSizeError _ => false
  | .otherExc _ => false

/-- Model of `RetryConfig` (`retry.py` lines 63-102).  Delay parameters
are rationals standing for the Python floats.  The
`transient_exceptions` field is not modeled: every call site in the
repository uses the default tuple, embedded in
`matchesTransientExceptions`. -/
structure RetryConfig where
  max_retries : Nat := 3
  initial_delay : ℚ := 1
  multiplier : ℚ := 2
  max_delay : ℚ := 30
  jitter_range : ℚ := 1/2
  transient_status_codes : List Nat := TRANSIENT_STATUS_CODES
deriving DecidableEq, Repr

def defaultRetryConfig : RetryConfig := {}

/-- Model of `RetryConfig.compute_delay` (`retry.py` lines 104-126).
`rand` is the value returned by `random.random()` during the call
(a rational in `[0, 1)`), injected for determinism. -/
def compute_delay (cfg : RetryConfig) (attempt : Nat) (rand : ℚ) : ℚ :=
  let base := min (cfg.initial_delay * cfg.multiplier ^ attempt) cfg.max_delay
  let jittered := if cfg.jitter_range > 0 then base * (1 + cfg.jitter_range * (2 * rand - 1)) else base
  max 0 jittered

/-- The pre-jitter base delay of `compute_delay`:
`min(initial_delay * multiplier ** attempt, max_delay)`. -/
def base_delay (cfg : RetryConfig) (attempt : Nat) : ℚ :=
  min (cfg.initial_delay * cfg.multiplier ^ attempt) cfg.max_delay

/-- Model of `is_transient_error` (`retry.py` lines 129-168).  The
status-code branch is kept exactly as in the source even though the
`isinstance` check already returns `true` for every `HTTPError`
(see `matchesTransientExceptions`). -/
def is_transient_error (cfg : RetryConfig) (e : PyExc) : Bool :=
  if matchesTransientExceptions e then true
  else
    match e with
    | .httpError (some s) => cfg.transient_status_codes.contains s
    | .httpError none => true
    | _ => false

/-- Observable outcome of one `retry_call` run: the returned value or the
exception that propagates, the number of times the operation was
executed, and the list of `time.sleep` delays in order. -/
structure RetryResult (T : Type) where
  outcome : Except PyExc T
  executions : Nat
  sleeps : List ℚ
deriving Repr

/-- The loop body of `retry_call` (`retry.py` lines 241-286).  `i` is the
current value of `attempt`; `left` is `cfg.max_retries - attempt`, the
number of retries still allowed (the loop raises when
`attempt >= cfg.max_retries`).  `op i` is the outcome of the i-th
execution of `func` (0-based); `jit i` the value of `random.random()`
inside the `compute_delay` call of attempt `i`. -/
def retryGo {T : Type} (cfg : RetryConfig) (op : Nat → Except PyExc T) (jit : Nat → ℚ) :
    Nat → Nat → RetryResult T
  | i, left =>
    match op i with
    | .ok v => { outcome := .ok v, executions := 1, sleeps := [] }
    | .error e =>
      if ¬ is_transient_error cfg e then
        { outcome := .error e, executions := 1, sleeps := [] }
      else
        match left with
        | 0 => { outcome := .error e, executions := 1, sleeps := [] }
        | left + 1 =>
          let d := compute_delay cfg i (jit i)
          let r := retryGo cfg op jit (i + 1) left
          { outcome := r.outcome, executions := r.executions + 1, sleeps := d :: r.sleeps }

/-- Model of `retry_call` (`retry.py` lines 189-291). -/
def retry_call {T : Type} (cfg : RetryConfig) (op : Nat → Except PyExc T) (jit : Nat → ℚ) :
    RetryResult T :=
  retryGo cfg op jit 0 cfg.max_retries

theorem retryGo_executions_le {T : Type} (cfg : RetryConfig) (op : Nat → Except PyExc T)
    (jit : Nat → ℚ) : ∀ left i, (retryGo cfg op jit i left).executions ≤ left + 1 := by
  intro left
  induction left with
  | zero =>
    intro i
    unfold retryGo
    cases op i with
    | ok v => simp
    | error e => simp
  | succ n ih =>
    intro i
    unfold retryGo
    cases op i with
    | ok v => simp
    | error e =>
      by_cases h : is_transient_error cfg e
      · simp only [h]
        simpa using Nat.succ_le_succ (ih (i + 1))
      · simp [h]

theorem retryGo_sleeps_formula {T : Type} (cfg : RetryConfig) (op : Nat → Except PyExc T)
    (jit : Nat → ℚ) : ∀ left i,
    (retryGo cfg op jit i left).sleeps =
      (List.range (retryGo cfg op jit i left).sleeps.length).map
        (fun j => compute_delay cfg (i + j) (jit (i + j))) := by
  intro left
  induction left with
  | zero =>
    intro i
    unfold retryGo
    cases op i with
    | ok v => simp
    | error e => by_cases h : is_transient_error cfg e <;> simp [h]
  | succ n ih =>
    intro i
    unfold retryGo
    cases op i with
    | ok v => simp
    | error e =>
      by_cases h : is_transient_error cfg e
      · simp only [h, not_true, if_neg, ite_false]
        simp only [List.length_cons, List.range_succ_eq_map, List.map_cons, List.map_map]
        refine List.cons_eq_cons.mpr ⟨by simp, ?_⟩
        rw [ih (i + 1)]
        simp only [List.length_map, List.length_range]
        apply List.map_congr_left
        intro j _
        simp only [Function.comp_apply, Nat.succ_eq_add_one]
        have hj : i + 1 + j = i + (j + 1) := by omega
        rw [hj]
      · simp [h]

/-- Number of sleeps never exceeds `max_retries`. -/
theorem retryGo_sleeps_le {T : Type} (cfg : RetryConfig) (op : Nat → Except PyExc T)
    (jit : Nat → ℚ) : ∀ left i, (retryGo cfg op jit i left).sleeps.length ≤ left := by
  intro left
  induction left with
  | zero =>
    intro i
    unfold retryGo
    cases op i with
    | ok v => simp
    | error e => by_cases h : is_transient_error cfg e <;> simp [h]
  | succ n ih =>
    intro i
    unfold retryGo
    cases op i with
    | ok v => simp
    | error e =>
      by_cases h : is_transient_error cfg e
      · simp only [h]
        simpa using Nat.succ_le_succ (ih (i + 1))
      · simp [h]

/-- A convenient unfolding of `compute_delay` through `base_delay`. -/
theorem compute_delay_eq (cfg : RetryConfig) (n : Nat) (r : ℚ) :
    compute_delay cfg n r =
      max 0 (if cfg.jitter_range > 0 then base_delay cfg n * (1 + cfg.jitter_range * (2 * r - 1))
             else base_delay cfg n) := rfl

/-- C4 (code_bug evidence): an operation that raises
`requests.exceptions.HTTPError` with response status 404 under the
default configuration is executed 4 times (= `max_retries + 1`) with 3
sleeps before the exception propagates — not once with no sleep as the
claim (and the docstrings of `retry.py`) state.  The cause:
`HTTPError ⊂ RequestException ⊂ IOError = OSError`, and `OSError` is in
`TRANSIENT_EXCEPTIONS`, so `is_transient_error` classifies every
`HTTPError` as transient before the status-code branch is reached. -/
theorem claim_C4 :
    (retry_call defaultRetryConfig
        (fun _ => (Except.error (PyExc.httpError (some 404)) : Except PyExc Unit))
        (fun _ => 1/2)).outcome = Except.error (PyExc.httpError (some 404)) ∧
    (retry_call defaultRetryConfig
        (fun _ => (Except.error (PyExc.httpError (some 404)) : Except PyExc Unit))
        (fun _ => 1/2)).executions = 4 ∧
    (retry_call defaultRetryConfig
        (fun _ => (Except.error (PyExc.httpError (some 404)) : Except PyExc Unit))
        (fun _ => 1/2)).sleeps.length = 3 ∧
    is_transient_error defaultRetryConfig (PyExc.httpError (some 404)) = true := by
  refine ⟨?_, ?_, ?_, ?_⟩ <;>
    simp [retry_call, retryGo, is_transient_error, matchesTransientExceptions, defaultRetryConfig]

/-- C5: (1) every sleep performed by `retry_call` before the (n+1)-th
retry equals `compute_delay cfg n (jit n)`; (2) for sane parameters the
jittered delay stays within `± jitter_range` of the pre-jitter base
delay `min(initial_delay * multiplier ^ n, max_delay)`; (3) the
pre-jitter base delays are non-decreasing in the attempt index; (4) an
operation failing with HTTP 500 twice then succeeding on the third call
returns the success value, is executed 3 times, sleeps exactly twice,
and the second base delay dominates the first. -/
theorem claim_C5 :
    (∀ (T : Type) (cfg : RetryConfig) (op : Nat → Except PyExc T) (jit : Nat → ℚ),
      (retry_call cfg op jit).sleeps =
        (List.range (retry_call cfg op jit).sleeps.length).map
          (fun n => compute_delay cfg n (jit n)))
  ∧ (∀ (cfg : RetryConfig) (n : Nat) (r : ℚ), 0 ≤ cfg.initial_delay → 0 ≤ cfg.multiplier →
      0 ≤ cfg.max_delay → 0 ≤ cfg.jitter_range → cfg.jitter_range ≤ 1 → 0 ≤ r → r ≤ 1 →
      (1 - cfg.jitter_range) * base_delay cfg n ≤ compute_delay cfg n r ∧
        compute_delay cfg n r ≤ (1 + cfg.jitter_range) * base_delay cfg n)
  ∧ (∀ (cfg : RetryConfig) (n : Nat), 0 ≤ cfg.initial_delay → 1 ≤ cfg.multiplier →
      base_delay cfg n ≤ base_delay cfg (n + 1))
  ∧ (∀ (T : Type) (v : T) (jit : Nat → ℚ),
      (retry_call defaultRetryConfig
          (fun i => if i < 2 then Except.error (PyExc.httpError (some 500)) else Except.ok v)
          jit).outcome = Except.ok v ∧
      (retry_call defaultRetryConfig
          (fun i => if i < 2 then Except.error (PyExc.httpError (some 500)) else Except.ok v)
          jit).executions = 3 ∧
      (retry_call defaultRetryConfig
          (fun i => if i < 2 then Except.error (PyExc.httpError (some 500)) else Except.ok v)
          jit).sleeps =
        [compute_delay defaultRetryConfig 0 (jit 0), compute_delay defaultRetryConfig 1 (jit 1)] ∧
      base_delay defaultRetryConfig 0 ≤ base_delay defaultRetryConfig 1) := by
  refine ⟨?_, ?_, ?_, ?_⟩
  · intro T cfg op jit
    simpa [retry_call] using retryGo_sleeps_formula cfg op jit cfg.max_retries 0
  · intro cfg n r h1 h2 h3 h4 h5 h6 h7
    have hbase : 0 ≤ base_delay cfg n := le_min (mul_nonneg h1 (pow_nonneg h2 n)) h3
    rw [compute_delay_eq]
    by_cases hj : cfg.jitter_range > 0
    · simp only [hj, if_true]
      have hf_low : 1 - cfg.jitter_range ≤ 1 + cfg.jitter_range * (2 * r - 1) := by nlinarith
      have hf_high : 1 + cfg.jitter_range * (2 * r - 1) ≤ 1 + cfg.jitter_range := by nlinarith
      have low : (1 - cfg.jitter_range) * base_delay cfg n ≤
          base_delay cfg n * (1 + cfg.jitter_range * (2 * r - 1)) := by nlinarith
      have low0 : 0 ≤ (1 - cfg.jitter_range) * base_delay cfg n :=
        mul_nonneg (by linarith) hbase
      have prod0 : 0 ≤ base_delay cfg n * (1 + cfg.jitter_range * (2 * r - 1)) :=
        le_trans low0 low
      rw [max_eq_right prod0]
      exact ⟨low, by nlinarith⟩
    · have hz : cfg.jitter_range = 0 := le_antisymm (not_lt.1 hj) h4
      simp only [hz, gt_iff_lt, lt_self_iff_false, if_false]
      rw [max_eq_right hbase]
      constructor <;> nlinarith
  · intro cfg n h1 h2
    unfold base_delay
    have hpow : cfg.multiplier ^ n ≤ cfg.multiplier ^ (n + 1) :=
      pow_le_pow_right₀ h2 (Nat.le_succ n)
    exact min_le_min (mul_le_mul_of_nonneg_left hpow h1) le_rfl
  · intro T v jit
    refine ⟨?_, ?_, ?_, ?_⟩
    · simp [retry_call, retryGo, is_transient_error, matchesTransientExceptions]
    · simp [retry_call, retryGo, is_transient_error, matchesTransientExceptions]
    · simp [retry_call, retryGo, is_transient_error, matchesTransientExceptions,
        defaultRetryConfig]
    · norm_num [base_delay, defaultRetryConfig, min_def]

/-- Witness for C5 at concrete inputs. -/
theorem claim_C5_witness :
    ((retry_call defaultRetryConfig
        (fun i => if i < 2 then Except.error (PyExc.httpError (some 500)) else Except.ok (42 : Nat))
        (fun _ => 1/2)).sleeps =
      (List.range (retry_call defaultRetryConfig
        (fun i => if i < 2 then Except.error (PyExc.httpError (some 500)) else Except.ok (42 : Nat))
        (fun _ => 1/2)).sleeps.length).map
          (fun n => compute_delay defaultRetryConfig n ((fun _ => (1:ℚ)/2) n)))
  ∧ ((1 - defaultRetryConfig.jitter_range) * base_delay defaultRetryConfig 0 ≤
        compute_delay defaultRetryConfig 0 (1/2) ∧
      compute_delay defaultRetryConfig 0 (1/2) ≤
        (1 + defaultRetryConfig.jitter_range) * base_delay defaultRetryConfig 0)
  ∧ base_delay defaultRetryConfig 0 ≤ base_delay defaultRetryConfig 1
  ∧ (retry_call defaultRetryConfig
        (fun i => if i < 2 then Except.error (PyExc.httpError (some 500)) else Except.ok (42 : Nat))
        (fun _ => 1/2)).outcome = Except.ok 42 :=
  ⟨claim_C5.1 Nat defaultRetryConfig _ _,
   claim_C5.2.1 defaultRetryConfig 0 (1/2) (by norm_num [defaultRetryConfig])
     (by norm_num [defaultRetryConfig]) (by norm_num [defaultRetryConfig])
     (by norm_num [defaultRetryConfig]) (by norm_num [defaultRetryConfig])
     (by norm_num) (by norm_num),
   claim_C5.2.2.1 defaultRetryConfig 0 (by norm_num [defaultRetryConfig])
     (by norm_num [defaultRetryConfig]),
   (claim_C5.2.2.2 Nat 42 (fun _ => 1/2)).1⟩

/-! ## SHA-256 (model of `hashlib.sha256(...).hexdigest()`)

Implemented over `Nat` with explicit reduction modulo `2 ^ 32`. -/

def add32 (a b : Nat) : Nat := (a + b) % 4294967296

def rotr32 (n x : Nat) : Nat := ((x >>> n) ||| (x <<< (32 - n))) % 4294967296

def not32 (x : Nat) : Nat := 4294967295 ^^^ x

def ssig0 (x : Nat) : Nat := (rotr32 7 x) ^^^ (rotr32 18 x) ^^^ (x >>> 3)

def ssig1 (x : Nat) : Nat := (rotr32 17 x) ^^^ (rotr32 19 x) ^^^ (x >>> 10)

def bsig0 (x : Nat) : Nat := (rotr32 2 x) ^^^ (rotr32 13 x) ^^^ (rotr32 22 x)

def bsig1 (x : Nat) : Nat := (rotr32 6 x) ^^^ (rotr32 11 x) ^^^ (rotr32 25 x)

def chf (e f g : Nat) : Nat := (e &&& f) ^^^ ((not32 e) &&& g)

def majf (a b c : Nat) : Nat := (a &&& b) ^^^ (a &&& c) ^^^ (b &&& c)

def sha_k : List Nat :=
  [1116352408, 1899447441, 3049323471, 3921009573, 961987163, 1508970993,
   2453635748, 2870763221, 3624381080, 310598401, 607225278, 1426881987,
   1925078388, 2162078206, 2614888103, 3248222580, 3835390401, 4022224774,
   264347078, 604807628, 770255983, 1249150122, 1555081692, 1996064986,
   2554220882, 2821834349, 2952996808, 3210313671, 3336571891, 3584528711,
   113926993, 338241895, 666307205, 773529912, 1294757372, 1396182291,
   1695183700, 1986661051, 2177026350, 2456956037, 2730485921, 2820302411,
   3259730800, 3345764771, 3516065817, 3600352804, 4094571909, 275423344,
   430227734, 506948616, 659060556, 883997877, 958139571, 1322822218,
   1537002063, 1747873779, 1955562222, 2024104815, 2227730452, 2361852424,
   2428436474, 2756734187, 3204031479, 3329325298]

def sha_h0 : List Nat :=
  [1779033703, 3144134277, 1013904242, 2773480762, 1359893119, 2600822924,
   528734635, 1541459225]

/-- Big-endian byte list of width `k` for `n`. -/
def beBytes (k : Nat) (n : Nat) : List Nat :=
  (List.range k).map (fun i => (n >>> (8 * (k - 1 - i))) % 256)

/-- SHA-256 padding of a byte message. -/
def sha256pad (msg : List Nat) : List Nat :=
  let len := msg.length
  let zeros := (120 - ((len + 1) % 64)) % 64
  msg ++ [0x80] ++ List.replicate zeros 0 ++ beBytes 8 (len * 8)

/-- Big-endian packing of bytes into 32-bit words. -/
def bytesToWords : List Nat → List Nat
  | b0 :: b1 :: b2 :: b3 :: rest => (((b0 * 256 + b1) * 256 + b2) * 256 + b3) :: bytesToWords rest
  | _ => []

def chunksOf (n : Nat) : Nat → List Nat → List (List Nat)
  | 0, _ => []
  | _, [] => []
  | fuel + 1, l => l.take n :: chunksOf n fuel (l.drop n)

def shaScheduleStep (w : List Nat) (_ : Nat) : List Nat :=
  let n := w.length
  let x := add32 (add32 (ssig1 (w.getD (n - 2) 0)) (w.getD (n - 7) 0))
    (add32 (ssig0 (w.getD (n - 15) 0)) (w.getD (n - 16) 0))
  w ++ [x]

def shaSchedule (block : List Nat) : List Nat :=
  (List.range 48).foldl shaScheduleStep block

def shaRound (k w : Nat) :
    Nat × Nat × Nat × Nat × Nat × Nat × Nat × Nat →
    Nat × Nat × Nat × Nat × Nat × Nat × Nat × Nat
  | (a, b, c, d, e, f, g, h) =>
    let t1 := add32 h (add32 (bsig1 e) (add32 (chf e f g) (add32 k w)))
    let t2 := add32 (bsig0 a) (majf a b c)
    (add32 t1 t2, a, b, c, add32 d t1, e, f, g)

def shaCompress (hs : List Nat) (block : List Nat) : List Nat :=
  let w := shaSchedule block
  let st0 := (hs.getD 0 0, hs.getD 1 0, hs.getD 2 0, hs.getD 3 0, hs.getD 4 0, hs.getD 5 0,
    hs.getD 6 0, hs.getD 7 0)
  let res := (List.range 64).foldl (fun st i => shaRound (sha_k.getD i 0) (w.getD i 0) st) st0
  match res with
  | (a, b, c, d, e, f, g, h) =>
    [add32 (hs.getD 0 0) a, add32 (hs.getD 1 0) b, add32 (hs.getD 2 0) c,
     add32 (hs.getD 3 0) d, add32 (hs.getD 4 0) e, add32 (hs.getD 5 0) f,
     add32 (hs.getD 6 0) g, add32 (hs.getD 7 0) h]

def hexDigit (n : Nat) : Char :=
  if n < 10 then Char.ofNat (48 + n) else Char.ofNat (87 + n)

def word8Hex (w : Nat) : List Char :=
  (List.range 8).map (fun i => hexDigit ((w >>> (4 * (7 - i))) % 16))

/-- SHA-256 hex digest of a byte message (lowercase hex, 64 characters). -/
def sha256hex (msg : List Nat) : String :=
  let padded := sha256pad msg
  let blocks := (chunksOf 64 padded.length padded).map bytesToWords
  let hv := blocks.foldl shaCompress sha_h0
  ⟨(hv.map word8Hex).flatten⟩

/-- UTF-8 encoding of a character list (model of `str.encode("utf-8")`). -/
def utf8Bytes (l : List Char) : List Nat :=
  l.flatMap (fun c =>
    let n := c.toNat
    if n < 0x80 then [n]
    else if n < 0x800 then [0xc0 ||| (n >>> 6), 0x80 ||| (n &&& 0x3f)]
    else if n < 0x10000 then
      [0xe0 ||| (n >>> 12), 0x80 ||| ((n >>> 6) &&& 0x3f), 0x80 ||| (n &&& 0x3f)]
    else
      [0xf0 ||| (n >>> 18), 0x80 ||| ((n >>> 12) &&& 0x3f), 0x80 ||| ((n >>> 6) &&& 0x3f),
       0x80 ||| (n &&& 0x3f)])

/-! ## Cache-key normalization — model of `_shared/content_cache.py` lines 157-217 -/

/-- Model of `_normalize_url` (`content_cache.py` lines 157-201).  Note
the order of operations in the source: the domain-alias `str.replace`
calls (which are case-sensitive) run before the scheme/domain
lowercasing. -/
def _normalize_url (url : String) : String :=
  if url = "" then "" else
  let l := pyStripL url.data
  let l := takeUntilCh '#' l
  let l := pyReplaceL "www.twitter.com".data "x.com".data l
  let l := pyReplaceL "twitter.com".data "x.com".data l
  let l := pyReplaceL "old.reddit.com".data "reddit.com".data l
  let l := pyReplaceL "www.reddit.com".data "reddit.com".data l
  let l := pyRstripCh '/' l
  let l :=
    if containsSub l "://".data then
      match splitOnce "://".data l with
      | some (scheme, rest) =>
        if containsSub rest "/".data then
          match splitOnce "/".data rest with
          | some (domain, path) =>
            pyLowerL scheme ++ "://".data ++ pyLowerL domain ++ "/".data ++ path
          | none => l
        else pyLowerL scheme ++ "://".data ++ pyLowerL rest
      | none => l
    else l
  ⟨l⟩

/-- Model of `_url_to_key` (`content_cache.py` lines 204-217). -/
def _url_to_key (url : String) : String :=
  sha256hex (utf8Bytes (_normalize_url url).data)

/-- C2 (code_bug evidence): the spec demands that
`https://WWW.Twitter.com/x/status/1/` and `https://x.com/x/status/1`
yield identical cache keys, but `_normalize_url` performs the
case-sensitive twitter/x alias `str.replace` before lowercasing the
domain, so the mixed-case URL normalizes to
`https://www.twitter.com/x/status/1` and hashes differently.  The final
conjunct shows the aliasing does collapse the two URLs when the domain
is already lowercase, confirming the ordering is the slip. -/
theorem claim_C2 :
    _normalize_url "https://WWW.Twitter.com/x/status/1/" = "https://www.twitter.com/x/status/1" ∧
    _normalize_url "https://x.com/x/status/1" = "https://x.com/x/status/1" ∧
    _url_to_key "https://WWW.Twitter.com/x/status/1/" ≠ _url_to_key "https://x.com/x/status/1" ∧
    _url_to_key "https://www.twitter.com/x/status/1/" = _url_to_key "https://x.com/x/status/1" := by
  refine ⟨?_, ?_, ?_, ?_⟩ <;> decide

/-! ## IP address textual parsing — model of the stdlib `ipaddress` module

`ipaddress.ip_address` as used by `validators_ssrf.py`: tries IPv4 then
IPv6.  The IPv4 parser enforces exactly four ASCII-digit octets, each of
at most 3 digits with no leading zero, value at most 255.  The IPv6
parser follows `_ip_int_from_string`: split on `:`, at least 3 and at
most 9 parts, at most one compressed `::` run, hextets of 1 to 4 hex
digits.  The embedded-IPv4 textual form (`::ffff:1.2.3.4`) is not
modeled; theorems quantify over the addresses this parser accepts. -/

def digitsVal (g : List Char) : Nat := g.foldl (fun acc c => acc * 10 + (c.toNat - 48)) 0

def hexVal (c : Char) : Nat :=
  if isDigitAsc c then c.toNat - 48
  else if 97 ≤ c.toNat then c.toNat - 87
  else c.toNat - 55

def hextetsVal (g : List Char) : Nat := g.foldl (fun acc c => acc * 16 + hexVal c) 0

/-- One dotted-quad octet (`ipaddress._parse_octet`). -/
def parseOctet (g : List Char) : Option Nat :=
  if g = [] then none
  else if ¬ g.all isDigitAsc then none
  else if 3 < g.length then none
  else if 1 < g.length ∧ g.headD ' ' = '0' then none
  else
    let n := digitsVal g
    if n ≤ 255 then some n else none

def parse_ipv4 (l : List Char) : Option Nat :=
  match splitOnCh '.' l with
  | [a, b, c, d] =>
    match parseOctet a, parseOctet b, parseOctet c, parseOctet d with
    | some w, some x, some y, some z => some (((w * 256 + x) * 256 + y) * 256 + z)
    | _, _, _, _ => none
  | _ => none

/-- One IPv6 hextet (`ipaddress._parse_hextet`): 1 to 4 hex digits. -/
def parseHextet (g : List Char) : Option Nat :=
  if g = [] then none
  else if ¬ g.all isHexDigitAsc then none
  else if 4 < g.length then none
  else some (hextetsVal g)

def parseHextets : List (List Char) → Option (List Nat)
  | [] => some []
  | g :: gs =>
    match parseHextet g, parseHextets gs with
    | some v, some vs => some (v :: vs)
    | _, _ => none

def assembleV6 (hi : List Nat) (skipped : Nat) (lo : List Nat) : Nat :=
  (hi ++ List.replicate skipped 0 ++ lo).foldl (fun acc v => acc * 65536 + v) 0

def parse_ipv6 (l : List Char) : Option Nat :=
  if ¬ l.all (fun c => isHexDigitAsc c || c = ':') then none
  else
    let parts := splitOnCh ':' l
    if parts.length < 3 ∨ 9 < parts.length then none
    else
      let interior := (parts.drop 1).take (parts.length - 2)
      let empties := (interior.filter (fun g : List Char => g.isEmpty)).length
      if 1 < empties then none
      else if empties = 1 then
        let skipIdx := 1 + interior.findIdx (fun g : List Char => g.isEmpty)
        let hi0 := skipIdx
        let lo0 := parts.length - skipIdx - 1
        let headEmpty := (parts.headD []).isEmpty
        let lastEmpty := (parts.getLastD []).isEmpty
        if headEmpty ∧ hi0 ≠ 1 then none
        else if lastEmpty ∧ lo0 ≠ 1 then none
        else
          let hi := if headEmpty then hi0 - 1 else hi0
          let lo := if lastEmpty then lo0 - 1 else lo0
          if 7 < hi + lo then none
          else
            match parseHextets (parts.take hi), parseHextets (parts.drop (parts.length - lo)) with
            | some hv, some lv => some (assembleV6 hv (8 - (hi + lo)) lv)
            | _, _ => none
      else
        if parts.length ≠ 8 then none
        else
          match parseHextets parts with
          | some vs => some (vs.foldl (fun acc v => acc * 65536 + v) 0)
          | none => none

inductive IpAddr where
  | v4 (n : Nat)
  | v6 (n : Nat)
deriving DecidableEq, Repr

/-- Model of `ipaddress.ip_address(str)`: IPv4 first, then IPv6. -/
def ip_address (l : List Char) : Option IpAddr :=
  match parse_ipv4 l with
  | some n => some (.v4 n)
  | none =>
    match parse_ipv6 l with
    | some n => some (.v6 n)
    | none => none

/-! ## SSRF validation — model of `_shared/validators_ssrf.py` -/

def mk4 (a b c d : Nat) : Nat := ((a * 256 + b) * 256 + c) * 256 + d

/-- `PRIVATE_IP_NETWORKS` (`validators_ssrf.py` lines 20-40), IPv4 part,
as (network address, mask length) pairs. -/
def PRIVATE_IPV4_NETWORKS : List (Nat × Nat) :=
  [(mk4 10 0 0 0, 8), (mk4 172 16 0 0, 12), (mk4 192 168 0 0, 16), (mk4 127 0 0 0, 8),
   (mk4 169 254 0 0, 16), (mk4 100 64 0 0, 10), (mk4 192 0 0 0, 24), (mk4 192 0 2 0, 24),
   (mk4 198 51 100 0, 24), (mk4 203 0 113 0, 24), (mk4 224 0 0 0, 4), (mk4 240 0 0 0, 4),
   (mk4 255 255 255 255, 32), (mk4 0 0 0 0, 8)]

/-- `PRIVATE_IP_NETWORKS`, IPv6 part: `::1/128`, `fc00::/7`, `fe80::/10`,
`ff00::/8`. -/
def PRIVATE_IPV6_NETWORKS : List (Nat × Nat) :=
  [(1, 128), (0xfc00 <<< 112, 7), (0xfe80 <<< 112, 10), (0xff00 <<< 112, 8)]

def inNet4 (n : Nat) (net : Nat × Nat) : Bool :=
  n >>> (32 - net.2) = net.1 >>> (32 - net.2)

def inNet6 (n : Nat) (net : Nat × Nat) : Bool :=
  n >>> (128 - net.2) = net.1 >>> (128 - net.2)

/-- Membership of a parsed address in `PRIVATE_IP_NETWORKS`.  Python
`ip in network` requires matching IP versions, so IPv4 addresses are
checked only against IPv4 networks and IPv6 against IPv6. -/
def is_private_addr : IpAddr → Bool
  | .v4 n => PRIVATE_IPV4_NETWORKS.any (inNet4 n)
  | .v6 n => PRIVATE_IPV6_NETWORKS.any (inNet6 n)

/-- Model of `is_private_ip` (`validators_ssrf.py` lines 74-92): an
unparseable string counts as private (unsafe). -/
def is_private_ip (s : String) : Bool :=
  match ip_address s.data with
  | some a => is_private_addr a
  | none => true

/-- `BLOCKED_HOSTNAMES` (`validators_ssrf.py` lines 43-61). -/
def BLOCKED_HOSTNAMES : List String :=
  ["localhost", "localhost.localdomain", "127.0.0.1", "0.0.0.0", "::1", "[::1]",
   "169.254.169.254", "metadata.google.internal", "metadata", "internal", "local", "corp",
   "intranet"]

/-- Model of `is_blocked_hostname` (`validators_ssrf.py` lines 95-116):
lowercase, strip, direct match, then dotted-suffix match. -/
def is_blocked_hostname (hostname : List Char) : Bool :=
  let h := pyStripL (pyLowerL hostname)
  BLOCKED_HOSTNAMES.any (fun b => h = b.data) ||
    BLOCKED_HOSTNAMES.any (fun b => ('.' :: b.data).isSuffixOf h)

/-- `ALLOWED_SCHEMES` (`validators_url.py` line 61). -/
def ALLOWED_SCHEMES : List String := ["http", "https"]

def schemeChar (c : Char) : Bool :=
  isAlphaAsc c || isDigitAsc c || c = '+' || c = '-' || c = '.'

/-- Model of the `scheme`/`netloc` components of
`urllib.parse.urlparse`: the scheme is the text before the first `:`
when it is a non-empty run of scheme characters starting with a letter
(returned lowercased), and the netloc is the text after a leading `//`
up to the first `/`, `?` or `#`.  The tab/CR/LF removal recent CPython
versions perform is not modeled; no theorem input contains them. -/
def pyUrlsplit (l : List Char) : List Char × List Char :=
  let (scheme, rest) :=
    match splitOnce [':'] l with
    | some (before, after) =>
      if before ≠ [] ∧ isAlphaAsc (before.headD ' ') ∧ before.all schemeChar then
        (pyLowerL before, after)
      else ([], l)
    | none => ([], l)
  if ['/', '/'].isPrefixOf rest then
    let after := rest.drop 2
    (scheme, after.takeWhile (fun c => c ≠ '/' ∧ c ≠ '?' ∧ c ≠ '#'))
  else (scheme, [])

/-- DNS resolution oracle: `dns h = some ips` models
`socket.getaddrinfo` returning addresses for hostname `h`; `none`
models `socket.gaierror` (and the other caught socket errors). -/
def DnsOracle : Type := String → Option (List IpAddr)

/-- Model of `socket.getaddrinfo(hostname, None)`: a numeric IP literal
resolves to itself without consulting DNS. -/
def getaddrinfo (dns : DnsOracle) (host : List Char) : Option (List IpAddr) :=
  match ip_address host with
  | some a => some [a]
  | none => dns ⟨host⟩

/-- The DNS-resolution phase of `validate_url_ssrf` (`validators_ssrf.py`
lines 192-207): reject when any resolved address is private; resolution
failure is non-fatal. -/
def dnsPhase (dns : DnsOracle) (resolve : Bool) (hostname : List Char) : Bool × Option String :=
  if resolve then
    match getaddrinfo dns hostname with
    | some ips =>
      match ips.find? is_private_addr with
      | some _ => (false, some ("Le hostname " ++ ⟨hostname⟩ ++ " resout vers une IP privee"))
      | none => (true, none)
    | none => (true, none)
  else (true, none)

/-- The post-extraction phase of `validate_url_ssrf` (`validators_ssrf.py`
lines 179-209): blocked-hostname check, literal-IP check (the source
round-trips the parsed address through `str` into `is_private_ip`,
which yields exactly `is_private_addr` of the parsed value), then DNS
check. -/
def hostPhase (dns : DnsOracle) (resolve : Bool) (hostname : List Char) : Bool × Option String :=
  if is_blocked_hostname hostname then
    (false, some ("Hostname bloque (interne/reserve): " ++ ⟨hostname⟩))
  else
    match ip_address hostname with
    | some a =>
      if is_private_addr a then
        (false, some ("Adresse IP privee/reservee non autorisee: " ++ ⟨hostname⟩))
      else dnsPhase dns resolve hostname
    | none => dnsPhase dns resolve hostname

/-- Hostname-extraction stage of `validate_url_ssrf` (`validators_ssrf.py`
lines 164-209): the argument is `parsed.netloc.lower()`; handle
`user:pass@host`, bracketed IPv6, port stripping, then run the
blocked/IP/DNS checks. -/
def validateHostname (dns : DnsOracle) (resolve : Bool) (hostname0 : List Char) :
    Bool × Option String :=
  let hostname := if hostname0.contains '@' then takeAfterLastCh '@' hostname0 else hostname0
  if hostname.headD ' ' = '[' then
    if (hostname.drop 1).contains ']' then
      hostPhase dns resolve ((hostname.drop 1).takeWhile (fun c => c ≠ ']'))
    else (false, some "Malformed IPv6 address (missing closing bracket)")
  else
    let hostname2 := if hostname.contains ':' then dropAfterLastCh ':' hostname else hostname
    hostPhase dns resolve hostname2

/-- Scheme/netloc checks of `validate_url_ssrf` (`validators_ssrf.py`
lines 156-165). -/
def validateParsed (dns : DnsOracle) (resolve : Bool) (scheme netloc : List Char) :
    Bool × Option String :=
  if ¬ (ALLOWED_SCHEMES.map String.data).contains scheme then
    (false, some "Schema non autorise. Utilisez http ou https.")
  else if netloc = [] then (false, some "Hostname manquant dans l URL")
  else validateHostname dns resolve (pyLowerL netloc)

/-- Model of `validate_url_ssrf` (`validators_ssrf.py` lines 119-209) on
the character list of the URL, staged through `validateParsed` and
`validateHostname` exactly as the straight-line source.  The
`allowed_schemes` parameter is the default `ALLOWED_SCHEMES` at every
call site and is embedded as such.  Error messages are abridged (no
apostrophes) — no theorem depends on their exact text. -/
def validateL (dns : DnsOracle) (resolve : Bool) (u : List Char) : Bool × Option String :=
  if u = [] then (false, some "URL vide ou invalide")
  else
    let sn := pyUrlsplit (pyStripL u)
    validateParsed dns resolve sn.1 sn.2

/-- Model of `validate_url_ssrf` on a `String` URL. -/
def validate_url_ssrf (dns : DnsOracle) (url : String) (resolve : Bool := true) :
    Bool × Option String :=
  validateL dns resolve url.data

/-- Model of `validate_url_ssrf_strict` (`validators_ssrf.py` lines
212-229): raises `SSRFError` (the `.error` case) when unsafe, returns
the stripped URL otherwise. -/
def validate_url_ssrf_strict (dns : DnsOracle) (url : String) (resolve : Bool := true) :
    Except String String :=
  match validate_url_ssrf dns url resolve with
  | (true, _) => .ok ⟨pyStripL url.data⟩
  | (false, e) => .error (e.getD "URL non securisee (SSRF)")

/-! ## Helper lemmas on the string primitives -/

/-- Inverse of `splitOnCh`: interleave the separator between the groups. -/
def joinSepCh (sep : Char) : List (List Char) → List Char
  | [] => []
  | [g] => g
  | g :: gs => g ++ sep :: joinSepCh sep gs

theorem splitOnCh_ne_nil (sep : Char) (l : List Char) : splitOnCh sep l ≠ [] := by
  induction l with
  | nil => simp [splitOnCh]
  | cons c rest ih =>
    simp only [splitOnCh]
    by_cases h : c = sep
    · simp [h]
    · simp only [h, if_false]
      cases hr : splitOnCh sep rest with
      | nil => exact absurd hr ih
      | cons g gs => simp [hr]

theorem joinSepCh_splitOnCh (sep : Char) (l : List Char) :
    joinSepCh sep (splitOnCh sep l) = l := by
  induction l with
  | nil => rfl
  | cons c rest ih =>
    simp only [splitOnCh]
    by_cases h : c = sep
    · subst h
      simp only [if_pos rfl]
      cases hr : splitOnCh c rest with
      | nil => exact absurd hr (splitOnCh_ne_nil c rest)
      | cons g gs =>
        rw [hr] at ih
        simp [joinSepCh, ih]
    · simp only [h, if_false]
      cases hr : splitOnCh sep rest with
      | nil => exact absurd hr (splitOnCh_ne_nil sep rest)
      | cons g gs =>
        rw [hr] at ih
        cases gs with
        | nil => simpa [joinSepCh] using ih
        | cons g2 gs2 => simpa [joinSepCh] using ih

theorem mem_joinSepCh {sep : Char} {gs : List (List Char)} {c : Char}
    (h : c ∈ joinSepCh sep gs) : (∃ g ∈ gs, c ∈ g) ∨ c = sep := by
  induction gs with
  | nil => simp [joinSepCh] at h
  | cons g rest ih =>
    cases rest with
    | nil =>
      simp only [joinSepCh] at h
      exact Or.inl ⟨g, by simp, h⟩
    | cons g2 rest2 =>
      simp only [joinSepCh, List.mem_append, List.mem_cons] at h
      rcases h with h | h | h
      · exact Or.inl ⟨g, by simp, h⟩
      · exact Or.inr h
      · rcases ih h with ⟨g', hg', hc⟩ | h
        · exact Or.inl ⟨g', by simp [hg'], hc⟩
        · exact Or.inr h

theorem length_splitOnCh (sep : Char) (l : List Char) :
    (splitOnCh sep l).length = l.count sep + 1 := by
  induction l with
  | nil => simp [splitOnCh]
  | cons c rest ih =>
    simp only [splitOnCh]
    by_cases h : c = sep
    · subst h
      simp [List.count_cons, ih]
    · simp only [h, if_false]
      cases hr : splitOnCh sep rest with
      | nil => exact absurd hr (splitOnCh_ne_nil sep rest)
      | cons g gs =>
        rw [hr] at ih
        simp only [List.length_cons] at ih ⊢
        rw [List.count_cons]
        simp [h, ih]

theorem dropWhile_eq_self_of {p : Char → Bool} {l : List Char}
    (h : ∀ c ∈ l, p c = false) : l.dropWhile p = l := by
  cases l with
  | nil => rfl
  | cons c rest => simp [List.dropWhile, h c (by simp)]

theorem takeWhile_eq_self_of {p : Char → Bool} {l : List Char}
    (h : ∀ c ∈ l, p c = true) : l.takeWhile p = l := by
  induction l with
  | nil => rfl
  | cons c rest ih =>
    simp only [List.takeWhile, h c (by simp)]
    simpa using ih (fun c hc => h c (by simp [hc]))

theorem takeWhile_append_stop {p : Char → Bool} {l r : List Char} {x : Char}
    (hl : ∀ c ∈ l, p c = true) (hx : p x = false) :
    (l ++ x :: r).takeWhile p = l := by
  induction l with
  | nil => simp [List.takeWhile, hx]
  | cons c rest ih =>
    simp only [List.cons_append, List.takeWhile, hl c (by simp)]
    simpa using ih (fun c hc => hl c (by simp [hc]))

theorem pyStripL_fix {l : List Char} (h : ∀ c ∈ l, isWsAsc c = false) : pyStripL l = l := by
  unfold pyStripL
  rw [dropWhile_eq_self_of h, dropWhile_eq_self_of (fun c hc => h c (List.mem_reverse.mp hc)),
    List.reverse_reverse]

theorem char_ne_of_toNat_ne {a b : Char} (h : a.toNat ≠ b.toNat) : a ≠ b :=
  fun he => h (he ▸ rfl)

theorem char_toNat_ofNat_lower {m : Nat} (h1 : 97 ≤ m) (h2 : m ≤ 122) :
    (Char.ofNat m).toNat = m := by
  interval_cases m <;> rfl

/-- `pyLowerChar` either fixes its argument or produces a lowercase
letter (code 97-122). -/
theorem pyLowerChar_cases (c : Char) :
    pyLowerChar c = c ∨ (97 ≤ (pyLowerChar c).toNat ∧ (pyLowerChar c).toNat ≤ 122) := by
  unfold pyLowerChar
  by_cases h : 65 ≤ c.toNat ∧ c.toNat ≤ 90
  · right
    rw [if_pos h, char_toNat_ofNat_lower (by omega) (by omega)]
    omega
  · left
    rw [if_neg h]

theorem pyLowerChar_eq_self {c : Char} (h : ¬ (65 ≤ c.toNat ∧ c.toNat ≤ 90)) :
    pyLowerChar c = c := if_neg h

theorem pyLowerL_fix {l : List Char} (h : ∀ c ∈ l, ¬ (65 ≤ c.toNat ∧ c.toNat ≤ 90)) :
    pyLowerL l = l := by
  unfold pyLowerL
  rw [List.map_congr_left (fun c hc => pyLowerChar_eq_self (h c hc))]
  simp

/-- If a non-lowercase-letter character is absent from `l`, it is absent
from `pyLowerL l`. -/
theorem not_mem_pyLowerL {t : Char} (ht : ¬ (97 ≤ t.toNat ∧ t.toNat ≤ 122)) {l : List Char}
    (h : t ∉ l) : t ∉ pyLowerL l := by
  intro hmem
  obtain ⟨c, hc, heq⟩ := List.mem_map.mp hmem
  rcases pyLowerChar_cases c with hfix | hrange
  · rw [hfix] at heq
    exact h (heq ▸ hc)
  · rw [heq] at hrange
    exact ht hrange

/-! ## Facts about the IP parsers -/

theorem parseOctet_digits {g : List Char} {n : Nat} (h : parseOctet g = some n) :
    g.all isDigitAsc = true := by
  unfold parseOctet at h
  by_cases h1 : g = []
  · simp [h1] at h
  · rw [if_neg h1] at h
    by_cases h2 : g.all isDigitAsc
    · exact h2
    · simp [h2] at h

theorem parse_ipv4_groups {l : List Char} {n : Nat} (h : parse_ipv4 l = some n) :
    ∃ a b c d, splitOnCh '.' l = [a, b, c, d] ∧
      (parseOctet a).isSome ∧ (parseOctet b).isSome ∧ (parseOctet c).isSome ∧
      (parseOctet d).isSome := by
  unfold parse_ipv4 at h
  split at h
  case _ a b c d heq =>
    refine ⟨a, b, c, d, heq, ?_, ?_, ?_, ?_⟩ <;>
      · split at h
        · simp_all
        · simp_all
  case _ => simp_all

theorem parse_ipv4_chars {l : List Char} {n : Nat} (h : parse_ipv4 l = some n) :
    ∀ c ∈ l, isDigitAsc c = true ∨ c = '.' := by
  obtain ⟨a, b, c, d, hsp, ha, hb, hc, hd⟩ := parse_ipv4_groups h
  intro x hx
  rw [← joinSepCh_splitOnCh '.' l, hsp] at hx
  rcases mem_joinSepCh hx with ⟨g, hg, hxg⟩ | hdot
  · left
    simp only [List.mem_cons, List.mem_singleton] at hg
    have hall : g.all isDigitAsc = true := by
      rcases hg with rfl | rfl | rfl | rfl | hfalse
      · exact parseOctet_digits (Option.isSome_iff_exists.mp ha).choose_spec
      · exact parseOctet_digits (Option.isSome_iff_exists.mp hb).choose_spec
      · exact parseOctet_digits (Option.isSome_iff_exists.mp hc).choose_spec
      · exact parseOctet_digits (Option.isSome_iff_exists.mp hd).choose_spec
      · simp at hfalse
    exact List.all_eq_true.mp hall x hxg
  · right
    exact hdot

theorem parse_ipv4_count {l : List Char} {n : Nat} (h : parse_ipv4 l = some n) :
    l.count '.' = 3 := by
  obtain ⟨a, b, c, d, hsp, _, _, _, _⟩ := parse_ipv4_groups h
  have := length_splitOnCh '.' l
  rw [hsp] at this
  simpa using this.symm

theorem parse_ipv4_ne_nil {l : List Char} {n : Nat} (h : parse_ipv4 l = some n) : l ≠ [] := by
  intro hnil
  subst hnil
  simp [parse_ipv4, splitOnCh] at h

theorem parse_ipv6_guard {l : List Char} {n : Nat} (h : parse_ipv6 l = some n) :
    l.all (fun c => isHexDigitAsc c || c = ':') = true := by
  unfold parse_ipv6 at h
  by_cases hall : l.all (fun c => isHexDigitAsc c || c = ':') = true
  · exact hall
  · rw [if_pos (by simpa using hall)] at h
    exact absurd h (by simp)

theorem parse_ipv6_chars {l : List Char} {n : Nat} (h : parse_ipv6 l = some n) :
    ∀ c ∈ l, isHexDigitAsc c = true ∨ c = ':' := by
  have hall := parse_ipv6_guard h
  intro c hc
  have := List.all_eq_true.mp hall c hc
  simp only [Bool.or_eq_true, decide_eq_true_eq] at this
  exact this

theorem parse_ipv6_has_colon {l : List Char} {n : Nat} (h : parse_ipv6 l = some n) :
    ':' ∈ l := by
  have hall := parse_ipv6_guard h
  unfold parse_ipv6 at h
  rw [if_neg (not_not_intro hall)] at h
  by_cases hlen : (splitOnCh ':' l).length < 3 ∨ 9 < (splitOnCh ':' l).length
  · rw [if_pos hlen] at h
    exact absurd h (by simp)
  · have h3 : 3 ≤ (splitOnCh ':' l).length := by omega
    have := length_splitOnCh ':' l
    have hpos : 0 < l.count ':' := by omega
    exact List.count_pos_iff.mp hpos

theorem parse_ipv4_nil : parse_ipv4 [] = none := by decide

theorem parse_ipv6_nil : parse_ipv6 [] = none := by decide

/-! ## Evaluation lemmas for the validator on well-formed hosts -/

theorem ne_char_of_toNat {c d : Char} {m : Nat} (hd : d.toNat = m) (h : c.toNat ≠ m) :
    c ≠ d := fun he => h (by rw [he, hd])

theorem digit_dot_facts {c : Char} (h : isDigitAsc c = true ∨ c = '.') :
    isWsAsc c = false ∧ c ≠ ':' ∧ c ≠ '/' ∧ c ≠ '?' ∧ c ≠ '#' ∧ c ≠ '@' ∧ c ≠ '[' ∧
      ¬ (65 ≤ c.toNat ∧ c.toNat ≤ 90) := by
  have hn : (48 ≤ c.toNat ∧ c.toNat ≤ 57) ∨ c.toNat = 46 := by
    rcases h with h | h
    · left
      simpa [isDigitAsc] using h
    · right
      rw [h]
      rfl
  refine ⟨?_, ?_, ?_, ?_, ?_, ?_, ?_, by omega⟩
  · simp only [isWsAsc, Bool.or_eq_false_iff, decide_eq_false_iff_not]
    omega
  · exact ne_char_of_toNat (show (':').toNat = 58 from rfl) (by omega)
  · exact ne_char_of_toNat (show ('/').toNat = 47 from rfl) (by omega)
  · exact ne_char_of_toNat (show ('?').toNat = 63 from rfl) (by omega)
  · exact ne_char_of_toNat (show ('#').toNat = 35 from rfl) (by omega)
  · exact ne_char_of_toNat (show ('@').toNat = 64 from rfl) (by omega)
  · exact ne_char_of_toNat (show ('[').toNat = 91 from rfl) (by omega)

theorem hex_colon_facts {c : Char} (h : isHexDigitAsc c = true ∨ c = ':') :
    isWsAsc c = false ∧ c ≠ '/' ∧ c ≠ '?' ∧ c ≠ '#' ∧ c ≠ '@' ∧ c ≠ '[' ∧ c ≠ ']' := by
  have hn : (48 ≤ c.toNat ∧ c.toNat ≤ 57) ∨ (97 ≤ c.toNat ∧ c.toNat ≤ 102) ∨
      (65 ≤ c.toNat ∧ c.toNat ≤ 70) ∨ c.toNat = 58 := by
    rcases h with h | h
    · simp only [isHexDigitAsc, isDigitAsc, Bool.or_eq_true, Bool.and_eq_true,
        decide_eq_true_eq] at h
      tauto
    · right; right; right
      subst h
      rfl
  refine ⟨?_, ?_, ?_, ?_, ?_, ?_, ?_⟩
  · simp only [isWsAsc, Bool.or_eq_false_iff, decide_eq_false_iff_not]
    omega
  · exact ne_char_of_toNat (show ('/').toNat = 47 from rfl) (by omega)
  · exact ne_char_of_toNat (show ('?').toNat = 63 from rfl) (by omega)
  · exact ne_char_of_toNat (show ('#').toNat = 35 from rfl) (by omega)
  · exact ne_char_of_toNat (show ('@').toNat = 64 from rfl) (by omega)
  · exact ne_char_of_toNat (show ('[').toNat = 91 from rfl) (by omega)
  · exact ne_char_of_toNat (show (']').toNat = 93 from rfl) (by omega)

/-- Characters of a lowercase DNS host name: lowercase letters, digits,
hyphen, dot. -/
def dnsNameChar (c : Char) : Prop :=
  (97 ≤ c.toNat ∧ c.toNat ≤ 122) ∨ (48 ≤ c.toNat ∧ c.toNat ≤ 57) ∨ c.toNat = 45 ∨
    c.toNat = 46

instance (c : Char) : Decidable (dnsNameChar c) := by
  unfold dnsNameChar
  infer_instance

theorem dnsName_facts {c : Char} (h : dnsNameChar c) :
    isWsAsc c = false ∧ c ≠ ':' ∧ c ≠ '/' ∧ c ≠ '?' ∧ c ≠ '#' ∧ c ≠ '@' ∧ c ≠ '[' ∧
      ¬ (65 ≤ c.toNat ∧ c.toNat ≤ 90) := by
  rcases h with h | h | h | h <;>
  · refine ⟨?_, ?_, ?_, ?_, ?_, ?_, ?_, by omega⟩
    · simp only [isWsAsc, Bool.or_eq_false_iff, decide_eq_false_iff_not]
      omega
    · exact ne_char_of_toNat (show (':').toNat = 58 from rfl) (by omega)
    · exact ne_char_of_toNat (show ('/').toNat = 47 from rfl) (by omega)
    · exact ne_char_of_toNat (show ('?').toNat = 63 from rfl) (by omega)
    · exact ne_char_of_toNat (show ('#').toNat = 35 from rfl) (by omega)
    · exact ne_char_of_toNat (show ('@').toNat = 64 from rfl) (by omega)
    · exact ne_char_of_toNat (show ('[').toNat = 91 from rfl) (by omega)

theorem headD_ne_of {l : List Char} {t : Char} (hne : l ≠ []) (hmem : ∀ c ∈ l, c ≠ t)
    {d : Char} (hd : d ≠ t) : l.headD d ≠ t := by
  cases l with
  | nil => exact hd
  | cons c rest => exact hmem c (by simp)

theorem splitOnce_colon_http (t : List Char) :
    splitOnce [':'] ('h' :: 't' :: 't' :: 'p' :: ':' :: t) = some (['h', 't', 't', 'p'], t) := by
  simp [splitOnce, List.isPrefixOf]

theorem pyUrlsplit_http (h : List Char) (hh : ∀ c ∈ h, c ≠ '/' ∧ c ≠ '?' ∧ c ≠ '#') :
    pyUrlsplit ('h' :: 't' :: 't' :: 'p' :: ':' :: '/' :: '/' :: h) = (['h', 't', 't', 'p'], h) := by
  unfold pyUrlsplit
  rw [splitOnce_colon_http ('/' :: '/' :: h)]
  have hsch : pyLowerL ['h', 't', 't', 'p'] = ['h', 't', 't', 'p'] := by decide
  simp only [ne_eq, reduceCtorEq, not_false_eq_true, List.headD_cons, true_and,
    show isAlphaAsc 'h' = true by decide,
    show (['h', 't', 't', 'p'] : List Char).all schemeChar = true by decide, if_pos, and_self,
    if_true, hsch]
  have hpre : (['/', '/'] : List Char).isPrefixOf ('/' :: '/' :: h) = true := by
    simp [List.isPrefixOf]
  rw [if_pos hpre]
  simp only [List.drop_succ_cons, List.drop_zero]
  refine Prod.ext ?_ ?_
  · rfl
  · exact takeWhile_eq_self_of (fun c hc => by simpa using hh c hc)

theorem contains_false {l : List Char} {a : Char} (h : a ∉ l) : l.contains a = false := by
  simpa using h

/-- `validateHostname` on a plain hostname (no `@`, no leading `[`,
no `:`) is the blocked/IP/DNS phase. -/
theorem validateHostname_plain (dns : DnsOracle) (resolve : Bool) {h0 : List Char}
    (hat : '@' ∉ h0) (hbr : h0.headD ' ' ≠ '[') (hcol : ':' ∉ h0) :
    validateHostname dns resolve h0 = hostPhase dns resolve h0 := by
  unfold validateHostname
  rw [contains_false hat]
  simp only [Bool.false_eq_true, if_false]
  rw [if_neg hbr, contains_false hcol]
  simp only [Bool.false_eq_true, if_false]

/-- `validateL` on `http://` followed by a plain host: strip, parse and
hostname extraction are the identity (up to lowercasing). -/
theorem validateL_plain (dns : DnsOracle) (resolve : Bool) {h : List Char} (hne : h ≠ [])
    (hf : ∀ c ∈ h, isWsAsc c = false ∧ c ≠ ':' ∧ c ≠ '/' ∧ c ≠ '?' ∧ c ≠ '#' ∧ c ≠ '@' ∧
      c ≠ '[') :
    validateL dns resolve ('h' :: 't' :: 't' :: 'p' :: ':' :: '/' :: '/' :: h) =
      hostPhase dns resolve (pyLowerL h) := by
  unfold validateL
  rw [if_neg (by simp)]
  have hstrip : pyStripL ('h' :: 't' :: 't' :: 'p' :: ':' :: '/' :: '/' :: h) =
      'h' :: 't' :: 't' :: 'p' :: ':' :: '/' :: '/' :: h := by
    apply pyStripL_fix
    intro c hc
    simp only [List.mem_cons] at hc
    rcases hc with rfl | rfl | rfl | rfl | rfl | rfl | rfl | hc
    · rfl
    · rfl
    · rfl
    · rfl
    · rfl
    · rfl
    · rfl
    · exact (hf c hc).1
  rw [hstrip,
    pyUrlsplit_http h (fun c hc => ⟨(hf c hc).2.2.1, (hf c hc).2.2.2.1, (hf c hc).2.2.2.2.1⟩)]
  show validateParsed dns resolve ['h', 't', 't', 'p'] h = hostPhase dns resolve (pyLowerL h)
  unfold validateParsed
  rw [if_neg (by decide), if_neg hne]
  apply validateHostname_plain
  · exact not_mem_pyLowerL (by decide) (fun hm => (hf '@' hm).2.2.2.2.2.1 rfl)
  · apply headD_ne_of
    · simpa [pyLowerL] using hne
    · intro c hc heq
      exact not_mem_pyLowerL (t := '[') (by decide)
        (fun hm => (hf '[' hm).2.2.2.2.2.2 rfl) (heq ▸ hc)
    · decide
  · exact not_mem_pyLowerL (by decide) (fun hm => (hf ':' hm).2.1 rfl)

/-- `validateL` on `http://[h]` for a bracketed IPv6-literal host. -/
theorem validateL_bracket (dns : DnsOracle) (resolve : Bool) {h : List Char}
    (hcls : ∀ c ∈ h, isHexDigitAsc c = true ∨ c = ':') :
    validateL dns resolve
        ('h' :: 't' :: 't' :: 'p' :: ':' :: '/' :: '/' :: '[' :: (h ++ [']'])) =
      hostPhase dns resolve (pyLowerL h) := by
  have hmem : ∀ c ∈ ('[' :: (h ++ [']'])), c = '[' ∨ c = ']' ∨ (isHexDigitAsc c = true ∨ c = ':') := by
    intro c hc
    simp only [List.mem_cons, List.mem_append, List.mem_singleton, List.not_mem_nil,
      or_false] at hc
    rcases hc with rfl | hc | rfl
    · exact Or.inl rfl
    · exact Or.inr (Or.inr (hcls c hc))
    · exact Or.inr (Or.inl rfl)
  unfold validateL
  rw [if_neg (by simp)]
  have hstrip : pyStripL ('h' :: 't' :: 't' :: 'p' :: ':' :: '/' :: '/' :: '[' :: (h ++ [']'])) =
      'h' :: 't' :: 't' :: 'p' :: ':' :: '/' :: '/' :: '[' :: (h ++ [']']) := by
    apply pyStripL_fix
    intro c hc
    simp only [List.mem_cons] at hc
    rcases hc with rfl | rfl | rfl | rfl | rfl | rfl | rfl | hc
    · rfl
    · rfl
    · rfl
    · rfl
    · rfl
    · rfl
    · rfl
    · rcases hmem c (List.mem_cons.mpr hc) with rfl | rfl | hcl
      · rfl
      · rfl
      · exact (hex_colon_facts hcl).1
  rw [hstrip, pyUrlsplit_http ('[' :: (h ++ [']']))
    (fun c hc => by
      rcases hmem c hc with rfl | rfl | hcl
      · exact ⟨by decide, by decide, by decide⟩
      · exact ⟨by decide, by decide, by decide⟩
      · exact ⟨(hex_colon_facts hcl).2.1, (hex_colon_facts hcl).2.2.1,
          (hex_colon_facts hcl).2.2.2.1⟩)]
  show validateParsed dns resolve ['h', 't', 't', 'p'] ('[' :: (h ++ [']'])) =
    hostPhase dns resolve (pyLowerL h)
  unfold validateParsed
  rw [if_neg (by decide), if_neg (by simp)]
  have hlowBr : pyLowerL ('[' :: (h ++ [']'])) = '[' :: (pyLowerL h ++ [']']) := by
    simp [pyLowerL, pyLowerChar]
  rw [hlowBr]
  unfold validateHostname
  have hat : '@' ∉ ('[' : Char) :: (pyLowerL h ++ [']']) := by
    simp only [List.mem_cons, List.mem_append, List.mem_singleton]
    push_neg
    refine ⟨by decide, ?_, by decide⟩
    exact fun hm => not_mem_pyLowerL (by decide)
      (fun hm2 => absurd (hex_colon_facts (hcls '@' hm2)).2.2.2.2.1 (by simp)) hm
  rw [contains_false hat]
  simp only [Bool.false_eq_true, if_false, List.headD_cons, if_pos rfl, List.drop_succ_cons,
    List.drop_zero]
  have hrbr : ']' ∉ pyLowerL h :=
    not_mem_pyLowerL (by decide)
      (fun hm2 => absurd (hex_colon_facts (hcls ']' hm2)).2.2.2.2.2.2 (by simp))
  have hctn : ((pyLowerL h ++ [']']).contains ']') = true := by simp
  rw [if_pos hctn]
  rw [takeWhile_append_stop
    (fun c hc => by
      simp only [decide_eq_true_eq]
      intro he
      exact hrbr (he ▸ hc)) (by decide)]
  simp

/-! ## Blocked-hostname analysis for IP literals -/

/-- An IPv4 literal that trips `is_blocked_hostname` can only be
`127.0.0.1`, `0.0.0.0` or `169.254.169.254` — all private. -/
theorem blocked_ipv4_private {h : List Char} {n : Nat} (hp : parse_ipv4 h = some n)
    (hb : is_blocked_hostname h = true) : is_private_addr (.v4 n) = true := by
  have hch := parse_ipv4_chars hp
  have hcnt := parse_ipv4_count hp
  have hlow : pyLowerL h = h :=
    pyLowerL_fix (fun c hc => (digit_dot_facts (hch c hc)).2.2.2.2.2.2.2)
  have hstrip : pyStripL h = h := pyStripL_fix (fun c hc => (digit_dot_facts (hch c hc)).1)
  unfold is_blocked_hostname at hb
  rw [hlow, hstrip] at hb
  simp only [Bool.or_eq_true, List.any_eq_true, decide_eq_true_eq] at hb
  rcases hb with ⟨b, hbm, hbe⟩ | ⟨b, hbm, hbe⟩
  · fin_cases hbm <;> subst hbe
    · rw [show parse_ipv4 ("localhost".data) = none from by decide] at hp
      exact Option.noConfusion hp
    · rw [show parse_ipv4 ("localhost.localdomain".data) = none from by decide] at hp
      exact Option.noConfusion hp
    · rw [show parse_ipv4 ("127.0.0.1".data) = some 2130706433 from by decide] at hp
      cases Option.some.inj hp
      decide
    · rw [show parse_ipv4 ("0.0.0.0".data) = some 0 from by decide] at hp
      cases Option.some.inj hp
      decide
    · rw [show parse_ipv4 ("::1".data) = none from by decide] at hp
      exact Option.noConfusion hp
    · rw [show parse_ipv4 ("[::1]".data) = none from by decide] at hp
      exact Option.noConfusion hp
    · rw [show parse_ipv4 ("169.254.169.254".data) = some 2852039166 from by decide] at hp
      cases Option.some.inj hp
      decide
    · rw [show parse_ipv4 ("metadata.google.internal".data) = none from by decide] at hp
      exact Option.noConfusion hp
    · rw [show parse_ipv4 ("metadata".data) = none from by decide] at hp
      exact Option.noConfusion hp
    · rw [show parse_ipv4 ("internal".data) = none from by decide] at hp
      exact Option.noConfusion hp
    · rw [show parse_ipv4 ("local".data) = none from by decide] at hp
      exact Option.noConfusion hp
    · rw [show parse_ipv4 ("corp".data) = none from by decide] at hp
      exact Option.noConfusion hp
    · rw [show parse_ipv4 ("intranet".data) = none from by decide] at hp
      exact Option.noConfusion hp
  · have hsuf := List.isSuffixOf_iff_suffix.mp hbe
    fin_cases hbm
    · exact absurd (hch 'l' (hsuf.subset (by decide))) (by decide)
    · exact absurd (hch 'l' (hsuf.subset (by decide))) (by decide)
    · have hle := hsuf.sublist.count_le '.'
      rw [show List.count '.' ('.' :: ("127.0.0.1".data)) = 4 from by decide, hcnt] at hle
      omega
    · have hle := hsuf.sublist.count_le '.'
      rw [show List.count '.' ('.' :: ("0.0.0.0".data)) = 4 from by decide, hcnt] at hle
      omega
    · exact absurd (hch ':' (hsuf.subset (by decide))) (by decide)
    · exact absurd (hch '[' (hsuf.subset (by decide))) (by decide)
    · have hle := hsuf.sublist.count_le '.'
      rw [show List.count '.' ('.' :: ("169.254.169.254".data)) = 4 from by decide, hcnt] at hle
      omega
    · exact absurd (hch 'm' (hsuf.subset (by decide))) (by decide)
    · exact absurd (hch 'm' (hsuf.subset (by decide))) (by decide)
    · exact absurd (hch 'i' (hsuf.subset (by decide))) (by decide)
    · exact absurd (hch 'l' (hsuf.subset (by decide))) (by decide)
    · exact absurd (hch 'r' (hsuf.subset (by decide))) (by decide)
    · exact absurd (hch 'i' (hsuf.subset (by decide))) (by decide)

/-- An IPv6 literal (written lowercase) that trips
`is_blocked_hostname` can only be `::1` — private. -/
theorem blocked_ipv6_private {h : List Char} {n : Nat} (hp : parse_ipv6 h = some n)
    (hlow : pyLowerL h = h) (hb : is_blocked_hostname h = true) :
    is_private_addr (.v6 n) = true := by
  have hch := parse_ipv6_chars hp
  have hstrip : pyStripL h = h := pyStripL_fix (fun c hc => (hex_colon_facts (hch c hc)).1)
  unfold is_blocked_hostname at hb
  rw [hlow, hstrip] at hb
  simp only [Bool.or_eq_true, List.any_eq_true, decide_eq_true_eq] at hb
  rcases hb with ⟨b, hbm, hbe⟩ | ⟨b, hbm, hbe⟩
  · fin_cases hbm <;> subst hbe
    · rw [show parse_ipv6 ("localhost".data) = none from by decide] at hp
      exact Option.noConfusion hp
    · rw [show parse_ipv6 ("localhost.localdomain".data) = none from by decide] at hp
      exact Option.noConfusion hp
    · rw [show parse_ipv6 ("127.0.0.1".data) = none from by decide] at hp
      exact Option.noConfusion hp
    · rw [show parse_ipv6 ("0.0.0.0".data) = none from by decide] at hp
      exact Option.noConfusion hp
    · rw [show parse_ipv6 ("::1".data) = some 1 from by decide] at hp
      cases Option.some.inj hp
      decide
    · rw [show parse_ipv6 ("[::1]".data) = none from by decide] at hp
      exact Option.noConfusion hp
    · rw [show parse_ipv6 ("169.254.169.254".data) = none from by decide] at hp
      exact Option.noConfusion hp
    · rw [show parse_ipv6 ("metadata.google.internal".data) = none from by decide] at hp
      exact Option.noConfusion hp
    · rw [show parse_ipv6 ("metadata".data) = none from by decide] at hp
      exact Option.noConfusion hp
    · rw [show parse_ipv6 ("internal".data) = none from by decide] at hp
      exact Option.noConfusion hp
    · rw [show parse_ipv6 ("local".data) = none from by decide] at hp
      exact Option.noConfusion hp
    · rw [show parse_ipv6 ("corp".data) = none from by decide] at hp
      exact Option.noConfusion hp
    · rw [show parse_ipv6 ("intranet".data) = none from by decide] at hp
      exact Option.noConfusion hp
  · have hsuf := List.isSuffixOf_iff_suffix.mp hbe
    have hdot : '.' ∈ h := hsuf.subset (List.mem_cons_self '.' b.data)
    exact absurd (hch '.' hdot) (by decide)

/-! ## Conclusions of the host phase -/

theorem ip_address_v4 {h : List Char} {n : Nat} (hp : parse_ipv4 h = some n) :
    ip_address h = some (.v4 n) := by
  unfold ip_address
  rw [hp]

theorem ip_address_v6 {h : List Char} {n : Nat} (hp : parse_ipv6 h = some n)
    (h4 : parse_ipv4 h = none) : ip_address h = some (.v6 n) := by
  unfold ip_address
  rw [h4, hp]

/-- IPv6 literals never parse as IPv4 (they contain a colon). -/
theorem parse_ipv4_of_ipv6 {h : List Char} {n : Nat} (hp : parse_ipv6 h = some n) :
    parse_ipv4 h = none := by
  cases h4 : parse_ipv4 h with
  | none => rfl
  | some m =>
    have := parse_ipv4_chars h4 ':' (parse_ipv6_has_colon hp)
    exact absurd this (by decide)

theorem hostPhase_private {h : List Char} {a : IpAddr} (dns : DnsOracle) (resolve : Bool)
    (hip : ip_address h = some a) (hpriv : is_private_addr a = true) :
    (hostPhase dns resolve h).1 = false := by
  unfold hostPhase
  by_cases hb : is_blocked_hostname h = true
  · rw [if_pos hb]
  · rw [if_neg hb, hip]
    simp [hpriv]

theorem hostPhase_public_literal {h : List Char} {a : IpAddr} (dns : DnsOracle)
    (hb : is_blocked_hostname h = false) (hip : ip_address h = some a)
    (hpriv : is_private_addr a = false) : hostPhase dns true h = (true, none) := by
  unfold hostPhase
  rw [if_neg (by simp [hb]), hip]
  simp only [hpriv, Bool.false_eq_true, if_false]
  unfold dnsPhase getaddrinfo
  rw [hip]
  simp [List.find?, hpriv]

theorem hostPhase_dns_private {host : List Char} {ips : List IpAddr} {a : IpAddr}
    (dns : DnsOracle) (hip : ip_address host = none) (hdns : dns ⟨host⟩ = some ips)
    (ha : a ∈ ips) (hpriv : is_private_addr a = true) :
    (hostPhase dns true host).1 = false := by
  unfold hostPhase
  by_cases hb : is_blocked_hostname host = true
  · rw [if_pos hb]
  · rw [if_neg hb, hip]
    unfold dnsPhase getaddrinfo
    rw [hip, hdns]
    obtain ⟨b, hfind⟩ := Option.isSome_iff_exists.mp (List.find?_isSome.mpr ⟨a, ha, hpriv⟩)
    simp [hfind]

theorem hostPhase_dns_fail {host : List Char} (dns : DnsOracle)
    (hb : is_blocked_hostname host = false) (hip : ip_address host = none)
    (hdns : dns ⟨host⟩ = none) : hostPhase dns true host = (true, none) := by
  unfold hostPhase
  rw [if_neg (by simp [hb]), hip]
  unfold dnsPhase getaddrinfo
  rw [hip, hdns]
  simp

/-- C1: SSRF gating of `validate_url_ssrf` / `validate_url_ssrf_strict`
(shown for `http://` URLs; the `https` case is identical).
(1) A private/reserved IPv4 literal host is rejected; (2) a public IPv4
literal host is accepted; (3)/(4) likewise for (lowercase-written) IPv6
literals in brackets; (5) a DNS hostname any of whose resolved addresses
is private/reserved is rejected and the strict variant raises; (6) a DNS
resolution failure is non-fatal: the validator passes the URL. -/
theorem claim_C1 :
    (∀ (dns : DnsOracle) (h : List Char) (n : Nat), parse_ipv4 h = some n →
      is_private_addr (.v4 n) = true →
      (validate_url_ssrf dns ⟨'h' :: 't' :: 't' :: 'p' :: ':' :: '/' :: '/' :: h⟩ true).1 =
        false)
  ∧ (∀ (dns : DnsOracle) (h : List Char) (n : Nat), parse_ipv4 h = some n →
      is_private_addr (.v4 n) = false →
      validate_url_ssrf dns ⟨'h' :: 't' :: 't' :: 'p' :: ':' :: '/' :: '/' :: h⟩ true =
        (true, none))
  ∧ (∀ (dns : DnsOracle) (h : List Char) (n : Nat), parse_ipv6 h = some n →
      pyLowerL h = h → is_private_addr (.v6 n) = true →
      (validate_url_ssrf dns
        ⟨'h' :: 't' :: 't' :: 'p' :: ':' :: '/' :: '/' :: '[' :: (h ++ [']'])⟩ true).1 = false)
  ∧ (∀ (dns : DnsOracle) (h : List Char) (n : Nat), parse_ipv6 h = some n →
      pyLowerL h = h → is_private_addr (.v6 n) = false →
      validate_url_ssrf dns
        ⟨'h' :: 't' :: 't' :: 'p' :: ':' :: '/' :: '/' :: '[' :: (h ++ [']'])⟩ true =
        (true, none))
  ∧ (∀ (dns : DnsOracle) (host : List Char) (ips : List IpAddr) (a : IpAddr), host ≠ [] →
      (∀ c ∈ host, dnsNameChar c) → ip_address host = none → dns ⟨host⟩ = some ips →
      a ∈ ips → is_private_addr a = true →
      (validate_url_ssrf dns ⟨'h' :: 't' :: 't' :: 'p' :: ':' :: '/' :: '/' :: host⟩ true).1 =
        false ∧
      ∃ e, validate_url_ssrf_strict dns
        ⟨'h' :: 't' :: 't' :: 'p' :: ':' :: '/' :: '/' :: host⟩ true = .error e)
  ∧ (∀ (dns : DnsOracle) (host : List Char), host ≠ [] → (∀ c ∈ host, dnsNameChar c) →
      ip_address host = none → is_blocked_hostname host = false → dns ⟨host⟩ = none →
      validate_url_ssrf dns ⟨'h' :: 't' :: 't' :: 'p' :: ':' :: '/' :: '/' :: host⟩ true =
        (true, none)) := by
  have plain4 : ∀ (h : List Char) (n : Nat), parse_ipv4 h = some n →
      (∀ c ∈ h, isWsAsc c = false ∧ c ≠ ':' ∧ c ≠ '/' ∧ c ≠ '?' ∧ c ≠ '#' ∧ c ≠ '@' ∧
        c ≠ '[') ∧ pyLowerL h = h := by
    intro h n hp
    have hch := parse_ipv4_chars hp
    exact ⟨fun c hc =>
        ⟨(digit_dot_facts (hch c hc)).1, (digit_dot_facts (hch c hc)).2.1,
          (digit_dot_facts (hch c hc)).2.2.1, (digit_dot_facts (hch c hc)).2.2.2.1,
          (digit_dot_facts (hch c hc)).2.2.2.2.1, (digit_dot_facts (hch c hc)).2.2.2.2.2.1,
          (digit_dot_facts (hch c hc)).2.2.2.2.2.2.1⟩,
      pyLowerL_fix (fun c hc => (digit_dot_facts (hch c hc)).2.2.2.2.2.2.2)⟩
  have plainDns : ∀ (host : List Char), (∀ c ∈ host, dnsNameChar c) →
      (∀ c ∈ host, isWsAsc c = false ∧ c ≠ ':' ∧ c ≠ '/' ∧ c ≠ '?' ∧ c ≠ '#' ∧ c ≠ '@' ∧
        c ≠ '[') ∧ pyLowerL host = host := by
    intro host hch
    exact ⟨fun c hc =>
        ⟨(dnsName_facts (hch c hc)).1, (dnsName_facts (hch c hc)).2.1,
          (dnsName_facts (hch c hc)).2.2.1, (dnsName_facts (hch c hc)).2.2.2.1,
          (dnsName_facts (hch c hc)).2.2.2.2.1, (dnsName_facts (hch c hc)).2.2.2.2.2.1,
          (dnsName_facts (hch c hc)).2.2.2.2.2.2.1⟩,
      pyLowerL_fix (fun c hc => (dnsName_facts (hch c hc)).2.2.2.2.2.2.2)⟩
  refine ⟨?_, ?_, ?_, ?_, ?_, ?_⟩
  · intro dns h n hp hpriv
    obtain ⟨hf, hlow⟩ := plain4 h n hp
    show (validateL dns true _).1 = false
    rw [validateL_plain dns true (parse_ipv4_ne_nil hp) hf, hlow]
    exact hostPhase_private dns true (ip_address_v4 hp) hpriv
  · intro dns h n hp hpriv
    obtain ⟨hf, hlow⟩ := plain4 h n hp
    show validateL dns true _ = (true, none)
    rw [validateL_plain dns true (parse_ipv4_ne_nil hp) hf, hlow]
    have hb : is_blocked_hostname h = false := by
      by_cases hbt : is_blocked_hostname h = true
      · exact absurd (blocked_ipv4_private hp hbt) (by simp [hpriv])
      · simpa using hbt
    exact hostPhase_public_literal dns hb (ip_address_v4 hp) hpriv
  · intro dns h n hp hlow hpriv
    show (validateL dns true _).1 = false
    rw [validateL_bracket dns true (parse_ipv6_chars hp), hlow]
    exact hostPhase_private dns true (ip_address_v6 hp (parse_ipv4_of_ipv6 hp)) hpriv
  · intro dns h n hp hlow hpriv
    show validateL dns true _ = (true, none)
    rw [validateL_bracket dns true (parse_ipv6_chars hp), hlow]
    have hb : is_blocked_hostname h = false := by
      by_cases hbt : is_blocked_hostname h = true
      · exact absurd (blocked_ipv6_private hp hlow hbt) (by simp [hpriv])
      · simpa using hbt
    exact hostPhase_public_literal dns hb (ip_address_v6 hp (parse_ipv4_of_ipv6 hp)) hpriv
  · intro dns host ips a hne hch hip hdns ha hpriv
    obtain ⟨hf, hlow⟩ := plainDns host hch
    have hv : (validateL dns true
        ('h' :: 't' :: 't' :: 'p' :: ':' :: '/' :: '/' :: host)).1 = false := by
      rw [validateL_plain dns true hne hf, hlow]
      exact hostPhase_dns_private dns hip hdns ha hpriv
    refine ⟨hv, ?_⟩
    unfold validate_url_ssrf_strict
    rcases hval : validate_url_ssrf dns
        ⟨'h' :: 't' :: 't' :: 'p' :: ':' :: '/' :: '/' :: host⟩ true with ⟨b, msg⟩
    have hb : b = false := by
      have : (validate_url_ssrf dns
          ⟨'h' :: 't' :: 't' :: 'p' :: ':' :: '/' :: '/' :: host⟩ true).1 = false := hv
      rw [hval] at this
      exact this
    subst hb
    exact ⟨_, rfl⟩
  · intro dns host hne hch hip hb hdns
    obtain ⟨hf, hlow⟩ := plainDns host hch
    show validateL dns true _ = (true, none)
    rw [validateL_plain dns true hne hf, hlow]
    exact hostPhase_dns_fail dns hb hip hdns

/-- Witness for C1 at concrete inputs: `10.0.0.1` (private v4),
`8.8.8.8` (public v4), `fe80::1` (link-local v6), `2606:4700::1111`
(public v6), a hostname resolving to `10.0.0.1`, and a hostname whose
resolution fails. -/
theorem claim_C1_witness :
    (validate_url_ssrf (fun _ => none)
      ⟨'h' :: 't' :: 't' :: 'p' :: ':' :: '/' :: '/' :: ("10.0.0.1".data)⟩ true).1 = false
  ∧ validate_url_ssrf (fun _ => none)
      ⟨'h' :: 't' :: 't' :: 'p' :: ':' :: '/' :: '/' :: ("8.8.8.8".data)⟩ true = (true, none)
  ∧ (validate_url_ssrf (fun _ => none)
      ⟨'h' :: 't' :: 't' :: 'p' :: ':' :: '/' :: '/' :: '[' :: ("fe80::1".data ++ [']'])⟩
      true).1 = false
  ∧ validate_url_ssrf (fun _ => none)
      ⟨'h' :: 't' :: 't' :: 'p' :: ':' :: '/' :: '/' :: '[' :: ("2606:4700::1111".data ++ [']'])⟩
      true = (true, none)
  ∧ ((validate_url_ssrf (fun _ => some [.v4 167772161])
      ⟨'h' :: 't' :: 't' :: 'p' :: ':' :: '/' :: '/' :: ("api.example.com".data)⟩ true).1 =
        false ∧
      ∃ e, validate_url_ssrf_strict (fun _ => some [.v4 167772161])
        ⟨'h' :: 't' :: 't' :: 'p' :: ':' :: '/' :: '/' :: ("api.example.com".data)⟩ true =
          .error e)
  ∧ validate_url_ssrf (fun _ => none)
      ⟨'h' :: 't' :: 't' :: 'p' :: ':' :: '/' :: '/' :: ("api.example.com".data)⟩ true =
        (true, none) :=
  ⟨claim_C1.1 (fun _ => none) ("10.0.0.1".data) 167772161 (by decide) (by decide),
   claim_C1.2.1 (fun _ => none) ("8.8.8.8".data) 134744072 (by decide) (by decide),
   claim_C1.2.2.1 (fun _ => none) ("fe80::1".data) 338288524927261089654018896841347694593
     (by decide) (by decide) (by decide),
   claim_C1.2.2.2.1 (fun _ => none) ("2606:4700::1111".data)
     50543257672059871404715951523469725969 (by decide) (by decide) (by decide),
   claim_C1.2.2.2.2.1 (fun _ => some [.v4 167772161]) ("api.example.com".data)
     [.v4 167772161] (.v4 167772161) (by decide) (by decide) (by decide) rfl (by decide)
     (by decide),
   claim_C1.2.2.2.2.2 (fun _ => none) ("api.example.com".data) (by decide) (by decide)
     (by decide) (by decide) rfl⟩

/-! ## Size-limited streaming fetch — model of `_shared/fetch_base.py` -/

/-- `DEFAULT_MAX_CONTENT_SIZE` (`sanitizers.py` line 28). -/
def DEFAULT_MAX_CONTENT_SIZE : Nat := 5000000

/-- One HTTP response as observed by `_do_fetch`: status code, parsed
`Content-Length` header (`none` when absent), and the chunk sequence
`iter_content` yields (bytes as naturals). -/
structure HttpResponse where
  status : Nat
  contentLength : Option Nat
  chunks : List (List Nat)
deriving Repr

/-- The result dict of `safe_fetch`: `success`, `status_code`, and
either `content` (success) or `error` (failure). -/
structure FetchResult where
  success : Bool
  status_code : Option Nat
  content : Option (List Nat)
  error : Option String
deriving DecidableEq, Repr

/-- The chunk-accumulation loop of `_do_fetch` (`fetch_base.py` lines
116-128): add each chunk length to the running total and abort (`none`)
the instant the total exceeds `max_size`; otherwise return the joined
content. -/
def streamLoop (max_size : Nat) (acc : Nat) : List (List Nat) → Option (List Nat)
  | [] => some []
  | ch :: rest =>
    if max_size < acc + ch.length then none
    else
      match streamLoop max_size (acc + ch.length) rest with
      | some tail => some (ch ++ tail)
      | none => none

/-- Model of the inner `_do_fetch` (`fetch_base.py` lines 93-133).
`response.raise_for_status()` is invoked only when the status is in
`TRANSIENT_STATUS_CODES` (all of which are >= 400, so it always raises
there, as an `HTTPError` carrying the response).  The `Content-Length`
header is modeled already parsed (a non-numeric header would raise
`ValueError` into the generic handler; no theorem exercises that). -/
def _do_fetch (resp : HttpResponse) (max_size : Nat) : Except PyExc FetchResult :=
  if TRANSIENT_STATUS_CODES.contains resp.status then
    .error (.httpError (some resp.status))
  else
    let stream : Except PyExc FetchResult :=
      match streamLoop max_size 0 resp.chunks with
      | none =>
        .ok { success := false, status_code := some resp.status, content := none,
              error := some "Response exceeded size limit" }
      | some content =>
        .ok { success := true, status_code := some resp.status, content := some content,
              error := none }
    match resp.contentLength with
    | some n =>
      if max_size < n then
        .ok { success := false, status_code := some resp.status, content := none,
              error := some "Response too large" }
      else stream
    | none => stream

/-- The `except` ladder of `safe_fetch` (`fetch_base.py` lines 141-149):
`ContentSizeError`, then `requests.exceptions.Timeout`, then
`HTTPError` (extracting the response status), then any `Exception`. -/
def fetchExceptLadder (outcome : Except PyExc FetchResult) : FetchResult :=
  match outcome with
  | .ok d => d
  | .error (.contentSizeError m) =>
    { success := false, status_code := none, content := none, error := some m }
  | .error .reqTimeout =>
    { success := false, status_code := none, content := none,
      error := some "Request timeout" }
  | .error (.httpError st) =>
    { success := false, status_code := st, content := none,
      error := some ("HTTP " ++ (match st with | some s => toString s | none => "None")) }
  | .error _ =>
    { success := false, status_code := none, content := none,
      error := some "unexpected error" }

/-- Model of `safe_fetch` (`fetch_base.py` lines 42-149): strict SSRF
validation (permanent, never retried), then the retried `_do_fetch`,
then the `except` ladder mapping exceptions to failure dicts.
`responses i` is the response of the i-th executed request; `jit` the
jitter stream of the retry engine.  Headers, timeouts and
`fetcher_name` do not affect the modeled observables and are omitted. -/
def safe_fetch (dns : DnsOracle) (responses : Nat → HttpResponse) (url : String)
    (max_size : Nat := DEFAULT_MAX_CONTENT_SIZE) (retry : Bool := true)
    (max_retries : Nat := 3) (jit : Nat → ℚ := fun _ => 1/2) : FetchResult :=
  match validate_url_ssrf_strict dns url true with
  | .error e =>
    { success := false, status_code := none, content := none,
      error := some ("SSRF protection: " ++ e) }
  | .ok _ =>
    fetchExceptLadder
      (if retry then
        (retry_call { defaultRetryConfig with max_retries := max_retries }
          (fun i => _do_fetch (responses i) max_size) jit).outcome
      else _do_fetch (responses 0) max_size)

theorem streamLoop_le {max_size : Nat} : ∀ {l : List (List Nat)} {acc : Nat}
    {content : List Nat}, acc ≤ max_size → streamLoop max_size acc l = some content →
    acc + content.length ≤ max_size := by
  intro l
  induction l with
  | nil =>
    intro acc content hacc h
    simp only [streamLoop, Option.some.injEq] at h
    subst h
    simpa using hacc
  | cons ch rest ih =>
    intro acc content hacc h
    simp only [streamLoop] at h
    by_cases hc : max_size < acc + ch.length
    · rw [if_pos hc] at h
      exact Option.noConfusion h
    · rw [if_neg hc] at h
      cases hrec : streamLoop max_size (acc + ch.length) rest with
      | none => rw [hrec] at h; exact Option.noConfusion h
      | some tail =>
        rw [hrec] at h
        simp only [Option.some.injEq] at h
        subst h
        have := ih (Nat.not_lt.mp hc) hrec
        simp only [List.length_append]
        omega

theorem streamLoop_complete {max_size : Nat} : ∀ {l : List (List Nat)} {acc : Nat},
    acc + (l.map List.length).sum ≤ max_size → streamLoop max_size acc l = some l.flatten := by
  intro l
  induction l with
  | nil => intro acc _; rfl
  | cons ch rest ih =>
    intro acc hsum
    simp only [List.map_cons, List.sum_cons] at hsum
    have hc : ¬ max_size < acc + ch.length := by omega
    simp only [streamLoop, if_neg hc]
    rw [ih (by omega)]
    simp

theorem streamLoop_overflow {max_size : Nat} : ∀ {l : List (List Nat)} {acc : Nat},
    acc ≤ max_size → max_size < acc + (l.map List.length).sum →
    streamLoop max_size acc l = none := by
  intro l
  induction l with
  | nil =>
    intro acc hacc hsum
    simp at hsum
    omega
  | cons ch rest ih =>
    intro acc hacc hsum
    simp only [List.map_cons, List.sum_cons] at hsum
    simp only [streamLoop]
    by_cases hc : max_size < acc + ch.length
    · rw [if_pos hc]
    · rw [if_neg hc, ih (Nat.not_lt.mp hc) (by omega)]

/-- A success dict produced by `_do_fetch` carries a body within
`max_size`. -/
theorem _do_fetch_success_bound {resp : HttpResponse} {max_size : Nat} {d : FetchResult}
    (h : _do_fetch resp max_size = .ok d) (hs : d.success = true) {c : List Nat}
    (hc : d.content = some c) : c.length ≤ max_size := by
  unfold _do_fetch at h
  by_cases ht : TRANSIENT_STATUS_CODES.contains resp.status = true
  · rw [if_pos ht] at h
    exact Except.noConfusion h
  · rw [if_neg ht] at h
    cases hsl : streamLoop max_size 0 resp.chunks with
    | none =>
      simp only [hsl] at h
      cases hcl : resp.contentLength with
      | some n =>
        simp only [hcl] at h
        by_cases hn : max_size < n
        · simp only [if_pos hn, Except.ok.injEq] at h
          rw [← h] at hs
          simp at hs
        · simp only [if_neg hn, Except.ok.injEq] at h
          rw [← h] at hs
          simp at hs
      | none =>
        simp only [hcl, Except.ok.injEq] at h
        rw [← h] at hs
        simp at hs
    | some content =>
      simp only [hsl] at h
      cases hcl : resp.contentLength with
      | some n =>
        simp only [hcl] at h
        by_cases hn : max_size < n
        · simp only [if_pos hn, Except.ok.injEq] at h
          rw [← h] at hs
          simp at hs
        · simp only [if_neg hn, Except.ok.injEq] at h
          rw [← h] at hc
          simp only [Option.some.injEq] at hc
          subst hc
          simpa using streamLoop_le (Nat.zero_le _) hsl
      | none =>
        simp only [hcl, Except.ok.injEq] at h
        rw [← h] at hc
        simp only [Option.some.injEq] at hc
        subst hc
        simpa using streamLoop_le (Nat.zero_le _) hsl

/-- `retryGo` only ever returns a value the operation produced. -/
theorem retryGo_ok {T : Type} (cfg : RetryConfig) (op : Nat → Except PyExc T) (jit : Nat → ℚ) :
    ∀ left i d, (retryGo cfg op jit i left).outcome = .ok d → ∃ j, op j = .ok d := by
  intro left
  induction left with
  | zero =>
    intro i d h
    unfold retryGo at h
    cases hop : op i with
    | ok v =>
      rw [hop] at h
      simp only at h
      exact ⟨i, by rw [hop, h]⟩
    | error e =>
      rw [hop] at h
      by_cases ht : is_transient_error cfg e <;> simp [ht] at h
  | succ n ih =>
    intro i d h
    unfold retryGo at h
    cases hop : op i with
    | ok v =>
      rw [hop] at h
      simp only at h
      exact ⟨i, by rw [hop, h]⟩
    | error e =>
      rw [hop] at h
      by_cases ht : is_transient_error cfg e
      · simp only [ht, not_true, if_neg, ite_false] at h
        exact ih (i + 1) d h
      · simp [ht] at h

/-- A success dict can only come out of the `except` ladder when the
wrapped computation returned it. -/
theorem fetchExceptLadder_success {o : Except PyExc FetchResult} {d : FetchResult}
    (h : fetchExceptLadder o = d) (hs : d.success = true) : o = .ok d := by
  cases o with
  | ok d' =>
    simp only [fetchExceptLadder] at h
    rw [h]
  | error e =>
    cases e <;>
      · simp only [fetchExceptLadder] at h
        rw [← h] at hs
        simp at hs

theorem retry_call_ok {T : Type} (cfg : RetryConfig) (op : Nat → Except PyExc T)
    (jit : Nat → ℚ) {d : T} (h : (retry_call cfg op jit).outcome = .ok d) :
    ∃ j, op j = .ok d := by
  unfold retry_call at h
  exact retryGo_ok cfg op jit cfg.max_retries 0 d h

theorem retry_call_outcome_first {T : Type} (cfg : RetryConfig) (op : Nat → Except PyExc T)
    (jit : Nat → ℚ) {d : T} (h : op 0 = Except.ok d) :
    retry_call cfg op jit = { outcome := Except.ok d, executions := 1, sleeps := [] } := by
  unfold retry_call retryGo
  rw [h]

/-- C8: (1) the default size limit is 5,000,000 bytes; (2) every
successful `safe_fetch` result has a body of at most `max_size` bytes,
whatever the responses, the `Content-Length` header, or the retry
configuration; (3) a `Content-Length` above `max_size` fails immediately
as too-large — the result is the same for every chunk sequence, i.e.
the body is not streamed; (4) a body whose accumulated chunk size
exceeds `max_size` fails as size-limit-exceeded even when the header is
absent or lies within bounds. -/
theorem claim_C8 :
    DEFAULT_MAX_CONTENT_SIZE = 5000000
  ∧ (∀ (dns : DnsOracle) (responses : Nat → HttpResponse) (url : String)
      (max_size : Nat) (retry : Bool) (maxr : Nat) (jit : Nat → ℚ) (c : List Nat),
      (safe_fetch dns responses url max_size retry maxr jit).success = true →
      (safe_fetch dns responses url max_size retry maxr jit).content = some c →
      c.length ≤ max_size)
  ∧ (∀ (dns : DnsOracle) (resp : HttpResponse) (url : String) (max_size maxr : Nat)
      (jit : Nat → ℚ) (n : Nat), (validate_url_ssrf dns url true).1 = true →
      TRANSIENT_STATUS_CODES.contains resp.status = false →
      resp.contentLength = some n → max_size < n →
      safe_fetch dns (fun _ => resp) url max_size true maxr jit =
        { success := false, status_code := some resp.status, content := none,
          error := some "Response too large" })
  ∧ (∀ (dns : DnsOracle) (resp : HttpResponse) (url : String) (max_size maxr : Nat)
      (jit : Nat → ℚ), (validate_url_ssrf dns url true).1 = true →
      TRANSIENT_STATUS_CODES.contains resp.status = false →
      (∀ n, resp.contentLength = some n → n ≤ max_size) →
      max_size < (resp.chunks.map List.length).sum →
      safe_fetch dns (fun _ => resp) url max_size true maxr jit =
        { success := false, status_code := some resp.status, content := none,
          error := some "Response exceeded size limit" }) := by
  refine ⟨rfl, ?_, ?_, ?_⟩
  · intro dns responses url max_size retry maxr jit c hs hc
    unfold safe_fetch at hs hc
    cases hval : validate_url_ssrf_strict dns url true with
    | error e =>
      simp only [hval] at hs
      simp at hs
    | ok s =>
      simp only [hval] at hs hc
      cases retry with
      | true =>
        simp only [if_true] at hs hc
        have hok := fetchExceptLadder_success rfl hs
        obtain ⟨j, hj⟩ := retry_call_ok _ _ jit hok
        exact _do_fetch_success_bound hj hs hc
      | false =>
        simp only [Bool.false_eq_true, if_false] at hs hc
        have hok := fetchExceptLadder_success rfl hs
        exact _do_fetch_success_bound hok hs hc
  · intro dns resp url max_size maxr jit n hval ht hcl hn
    have hdo : _do_fetch resp max_size =
        Except.ok { success := false, status_code := some resp.status, content := none,
                    error := some "Response too large" } := by
      unfold _do_fetch
      rw [if_neg (by simpa using ht)]
      simp only [hcl]
      rw [if_pos hn]
    unfold safe_fetch validate_url_ssrf_strict
    rcases hv : validate_url_ssrf dns url true with ⟨b, msg⟩
    have hb : b = true := by rw [hv] at hval; exact hval
    subst hb
    simp only [if_true]
    rw [retry_call_outcome_first _ _ jit hdo]
    rfl
  · intro dns resp url max_size maxr jit hval ht hcl hsum
    have hdo : _do_fetch resp max_size =
        Except.ok { success := false, status_code := some resp.status, content := none,
                    error := some "Response exceeded size limit" } := by
      unfold _do_fetch
      rw [if_neg (by simpa using ht)]
      rw [streamLoop_overflow (Nat.zero_le _) (by simpa using hsum)]
      cases hc : resp.contentLength with
      | some n =>
        simp only [hc]
        rw [if_neg (by simpa using Nat.not_lt.mpr (hcl n hc))]
      | none => simp only [hc]
    unfold safe_fetch validate_url_ssrf_strict
    rcases hv : validate_url_ssrf dns url true with ⟨b, msg⟩
    have hb : b = true := by rw [hv] at hval; exact hval
    subst hb
    simp only [if_true]
    rw [retry_call_outcome_first _ _ jit hdo]
    rfl

/-- Witness for C8 at concrete inputs. -/
theorem claim_C8_witness :
    DEFAULT_MAX_CONTENT_SIZE = 5000000
  ∧ ((3 : Nat) ≤ 10)
  ∧ safe_fetch (fun _ => none)
      (fun _ => { status := 200, contentLength := some 6000000, chunks := [[1, 2, 3]] })
      "http://93.184.216.34" 5000000 true 3 (fun _ => 1/2) =
      { success := false, status_code := some 200, content := none,
        error := some "Response too large" }
  ∧ safe_fetch (fun _ => none)
      (fun _ => { status := 200, contentLength := none, chunks := [[1, 2], [3, 4]] })
      "http://93.184.216.34" 3 true 3 (fun _ => 1/2) =
      { success := false, status_code := some 200, content := none,
        error := some "Response exceeded size limit" } :=
  ⟨claim_C8.1,
   claim_C8.2.1 (fun _ => none)
     (fun _ => { status := 200, contentLength := none, chunks := [[1, 2, 3]] })
     "http://93.184.216.34" 10 true 3 (fun _ => 1/2) [1, 2, 3] (by decide) (by decide),
   claim_C8.2.2.1 (fun _ => none)
     { status := 200, contentLength := some 6000000, chunks := [[1, 2, 3]] }
     "http://93.184.216.34" 5000000 3 (fun _ => 1/2) 6000000 (by decide) (by decide) rfl
     (by decide),
   claim_C8.2.2.2 (fun _ => none)
     { status := 200, contentLength := none, chunks := [[1, 2], [3, 4]] }
     "http://93.184.216.34" 3 3 (fun _ => 1/2) (by decide) (by decide)
     (by intro n hn; exact Option.noConfusion hn) (by decide)⟩

/-- C10: a response whose status is outside the transient set — a 404
included — and whose declared and actual sizes fit the limit comes back
as `success = true` carrying that status code and the body:
`safe_fetch` never converts a non-transient HTTP error status into a
failure result or an exception. -/
theorem claim_C10 :
    ∀ (dns : DnsOracle) (resp : HttpResponse) (url : String) (max_size maxr : Nat)
      (jit : Nat → ℚ), (validate_url_ssrf dns url true).1 = true →
      TRANSIENT_STATUS_CODES.contains resp.status = false →
      (∀ n, resp.contentLength = some n → n ≤ max_size) →
      (resp.chunks.map List.length).sum ≤ max_size →
      safe_fetch dns (fun _ => resp) url max_size true maxr jit =
        { success := true, status_code := some resp.status,
          content := some resp.chunks.flatten, error := none } := by
  intro dns resp url max_size maxr jit hval ht hcl hsum
  have hdo : _do_fetch resp max_size =
      Except.ok { success := true, status_code := some resp.status,
                  content := some resp.chunks.flatten, error := none } := by
    unfold _do_fetch
    rw [if_neg (by simpa using ht)]
    rw [streamLoop_complete (by simpa using hsum)]
    cases hc : resp.contentLength with
    | some n =>
      simp only [hc]
      rw [if_neg (by simpa using Nat.not_lt.mpr (hcl n hc))]
    | none => simp only [hc]
  unfold safe_fetch validate_url_ssrf_strict
  rcases hv : validate_url_ssrf dns url true with ⟨b, msg⟩
  have hb : b = true := by rw [hv] at hval; exact hval
  subst hb
  simp only [if_true]
  rw [retry_call_outcome_first _ _ jit hdo]
  rfl

/-- Witness for C10: a 404 response with a small body is returned as a
success dict with `status_code = 404`. -/
theorem claim_C10_witness :
    safe_fetch (fun _ => none)
      (fun _ => { status := 404, contentLength := some 3, chunks := [[104, 105, 33]] })
      "http://93.184.216.34" 5000000 true 3 (fun _ => 1/2) =
      { success := true, status_code := some 404, content := some [104, 105, 33],
        error := none } :=
  claim_C10 (fun _ => none)
    { status := 404, contentLength := some 3, chunks := [[104, 105, 33]] }
    "http://93.184.216.34" 5000000 3 (fun _ => 1/2) (by decide) (by decide)
    (by intro n hn; cases Option.some.inj hn; decide) (by decide)

/-! ## Content cache — model of `_shared/content_cache.py`

The disk is modeled as an association list from cache key (the file
name stem) to file contents; a file holds either a well-formed
serialized `CacheEntry` or `invalid` data of a given byte size (a file
whose JSON parse or `from_dict` reconstruction fails).  Timestamps are
integers (`time.time()` at integer resolution); each operation takes
the current time explicitly.  JSON numbers are restricted to integers
in this model. -/

inductive Json where
  | null
  | bool (b : Bool)
  | int (n : Int)
  | str (s : String)
  | arr (xs : List Json)
  | obj (fields : List (String × Json))

/-- Python `dict.get(k, default)` on a JSON object field list (keys are
unique in a Python dict; first match). -/
def jsonLookup (fields : List (String × Json)) (k : String) : Option Json :=
  match fields with
  | [] => none
  | (k', v) :: rest => if k' = k then some v else jsonLookup rest k

def dictGet (fields : List (String × Json)) (k : String) (d : Json) : Json :=
  (jsonLookup fields k).getD d

/-- Python truthiness of a JSON value. -/
def jsonTruthy : Json → Bool
  | .null => false
  | .bool b => b
  | .int n => n ≠ 0
  | .str s => s ≠ ""
  | .arr xs => !xs.isEmpty
  | .obj fs => !fs.isEmpty

/-- JSON string escaping as `json.dumps` with `ensure_ascii=False`
performs it: only `"`, `\\` and control characters are escaped. -/
def jsonEscapeChar (c : Char) : List Char :=
  if c = '"' then ['\\', '"']
  else if c = '\\' then ['\\', '\\']
  else if c.toNat = 10 then ['\\', 'n']
  else if c.toNat = 9 then ['\\', 't']
  else if c.toNat = 13 then ['\\', 'r']
  else if c.toNat = 8 then ['\\', 'b']
  else if c.toNat = 12 then ['\\', 'f']
  else if c.toNat < 32 then
    ['\\', 'u', '0', '0', hexDigit (c.toNat / 16), hexDigit (c.toNat % 16)]
  else [c]

def jsonEscape (s : String) : List Char :=
  '"' :: (s.data.flatMap jsonEscapeChar ++ ['"'])

mutual

/-- `json.dumps` with the default separators (", " and ": ") and
`ensure_ascii=False`, as used by `ContentCache.set`. -/
def dumpsL : Json → List Char
  | .null => "null".data
  | .bool true => "true".data
  | .bool false => "false".data
  | .int n => (toString n).data
  | .str s => jsonEscape s
  | .arr xs => '[' :: (dumpsArrItems xs ++ [']'])
  | .obj fs => Char.ofNat 123 :: (dumpsObjItems fs ++ [Char.ofNat 125])

def dumpsArrItems : List Json → List Char
  | [] => []
  | [x] => dumpsL x
  | x :: y :: xs => dumpsL x ++ ", ".data ++ dumpsArrItems (y :: xs)

def dumpsObjItems : List (String × Json) → List Char
  | [] => []
  | [(k, v)] => jsonEscape k ++ ": ".data ++ dumpsL v
  | (k, v) :: f :: fs => jsonEscape k ++ ": ".data ++ dumpsL v ++ ", ".data ++
      dumpsObjItems (f :: fs)

end

/-- `CacheConfig` (`content_cache.py` lines 71-98) with the defaults of
lines 60-65. -/
structure CacheConfig where
  ttl_metadata : Int := 3600
  ttl_content : Int := 86400
  max_entries : Nat := 100
  max_size_mb : Nat := 50
  enabled : Bool := true

/-- `CacheConfig.get_ttl` (`content_cache.py` lines 142-154). -/
def CacheConfig.get_ttl (cfg : CacheConfig) (ttl_type : String) : Int :=
  if ttl_type = "metadata" then cfg.ttl_metadata else cfg.ttl_content

/-- `CacheEntry` (`content_cache.py` lines 220-277). -/
structure CacheEntry where
  url : String
  data : Json
  created_at : Int
  ttl : Int
  ttl_type : String := "content"
  fetcher : String := ""

/-- `CacheEntry.to_dict` (`content_cache.py` lines 256-265): insertion
order url, data, created_at, ttl, ttl_type, fetcher. -/
def CacheEntry.to_dict (e : CacheEntry) : Json :=
  .obj [("url", .str e.url), ("data", e.data), ("created_at", .int e.created_at),
        ("ttl", .int e.ttl), ("ttl_type", .str e.ttl_type), ("fetcher", .str e.fetcher)]

/-- The byte size of the serialized entry:
`len(json.dumps(entry.to_dict(), ensure_ascii=False).encode("utf-8"))`. -/
def entrySize (e : CacheEntry) : Nat :=
  (utf8Bytes (dumpsL e.to_dict)).length

inductive FileData where
  | entry (e : CacheEntry)
  | invalid (size : Nat)

/-- The cache directory contents: file name stem (the key) to data. -/
abbrev Store : Type := List (String × FileData)

def fileSize : FileData → Nat
  | .entry e => entrySize e
  | .invalid n => n

/-- The `created_at` used by `_list_entries_sorted`
(`content_cache.py` lines 676-698): read from the JSON, `0` for
unreadable entries. -/
def fileCreated : FileData → Int
  | .entry e => e.created_at
  | .invalid _ => 0

/-- `CacheEntry.is_expired` (`content_cache.py` lines 246-249), with
corrupt files counted as expired as `_cleanup_expired` does. -/
def fileExpired (now : Int) : FileData → Bool
  | .entry e => e.created_at + e.ttl < now
  | .invalid _ => true

def lookupStore (s : Store) (k : String) : Option FileData :=
  match s with
  | [] => none
  | (k', v) :: rest => if k' = k then some v else lookupStore rest k

def removeKey (k : String) (s : Store) : Store :=
  s.filter (fun p => p.1 ≠ k)

def totalSize (s : Store) : Nat := (s.map (fun p => fileSize p.2)).sum

/-- `_cleanup_expired` (`content_cache.py` lines 609-635): drop expired
and corrupt entries. -/
def cleanupExpired (now : Int) (s : Store) : Store :=
  s.filter (fun p => !fileExpired now p.2)

/-- Remove the first entry achieving the minimal `created_at` — the
entry `entries.pop(0)` yields from the stably sorted listing. -/
def removeOldest : Store → Store
  | [] => []
  | (k, f) :: rest =>
    if rest.all (fun p => fileCreated f ≤ fileCreated p.2) then rest
    else (k, f) :: removeOldest rest

/-- The count-eviction loop of `_enforce_limits` (`content_cache.py`
lines 647-653): `while len(entries) >= max_entries and entries`, evict
the oldest.  Fuel is the store length: each iteration removes one
entry, so the loop always stops within that budget. -/
def countEvictFuel (maxE : Nat) : Nat → Store → Store
  | 0, s => s
  | fuel + 1, s =>
    if maxE ≤ s.length ∧ ¬ s.isEmpty then countEvictFuel maxE fuel (removeOldest s) else s

def countEvict (maxE : Nat) (s : Store) : Store := countEvictFuel maxE s.length s

/-- The size-eviction loop of `_enforce_limits` (`content_cache.py`
lines 655-674): while the total size exceeds the cap, evict the oldest
remaining entry. -/
def sizeEvictFuel (maxBytes : Nat) : Nat → Store → Store
  | 0, s => s
  | fuel + 1, s =>
    if maxBytes < totalSize s ∧ ¬ s.isEmpty then sizeEvictFuel maxBytes fuel (removeOldest s) else s

def sizeEvict (maxBytes : Nat) (s : Store) : Store := sizeEvictFuel maxBytes s.length s

/-- `_enforce_limits` (`content_cache.py` lines 637-674): purge expired,
then count-evict oldest-first, then size-evict oldest-first. -/
def _enforce_limits (cfg : CacheConfig) (now : Int) (s : Store) : Store :=
  sizeEvict (cfg.max_size_mb * 1024 * 1024) (countEvict cfg.max_entries (cleanupExpired now s))

/-- `ContentCache.get` (`content_cache.py` lines 326-386): returns the
cached data and the directory state afterwards (expired and corrupt
entries are deleted on sight). -/
def ContentCache.get (cfg : CacheConfig) (store : Store) (now : Int) (url : String) :
    Option Json × Store :=
  if ¬ cfg.enabled then (none, store)
  else
    let key := _url_to_key url
    match lookupStore store key with
    | none => (none, store)
    | some (.invalid _) => (none, removeKey key store)
    | some (.entry e) =>
      if e.created_at + e.ttl < now then (none, removeKey key store)
      else (some e.data, store)

/-- `ContentCache.set` (`content_cache.py` lines 388-473): refuse when
disabled, when the payload is not truthy-successful, or when the
serialized entry exceeds 1,000,000 bytes; otherwise enforce limits and
write atomically (modeled as replace-and-append). -/
def ContentCache.set (cfg : CacheConfig) (store : Store) (now : Int) (url : String)
    (data : List (String × Json)) (ttl_type : String := "content") (fetcher : String := "") :
    Bool × Store :=
  if ¬ cfg.enabled then (false, store)
  else if ¬ jsonTruthy (dictGet data "success" (.bool false)) then (false, store)
  else
    let key := _url_to_key url
    let e : CacheEntry :=
      { url := url, data := .obj data, created_at := now, ttl := cfg.get_ttl ttl_type,
        ttl_type := ttl_type, fetcher := fetcher }
    if 1000000 < entrySize e then (false, store)
    else
      let store1 := _enforce_limits cfg now store
      (true, removeKey key store1 ++ [(key, .entry e)])

theorem lookupStore_removeKey_self (k : String) (s : Store) :
    lookupStore (removeKey k s) k = none := by
  induction s with
  | nil => rfl
  | cons p rest ih =>
    obtain ⟨k', v⟩ := p
    by_cases hp : k' = k
    · simp only [removeKey, List.filter_cons] at ih ⊢
      rw [if_neg (by simp [hp])]
      exact ih
    · simp only [removeKey, List.filter_cons] at ih ⊢
      rw [if_pos (by simp [hp])]
      simp only [lookupStore, hp, if_false]
      exact ih

theorem lookupStore_append_right (s t : Store) (k : String) (h : lookupStore s k = none) :
    lookupStore (s ++ t) k = lookupStore t k := by
  induction s with
  | nil => rfl
  | cons p rest ih =>
    obtain ⟨k', v⟩ := p
    simp only [lookupStore] at h
    by_cases hp : k' = k
    · rw [if_pos hp] at h
      exact Option.noConfusion h
    · rw [if_neg hp] at h
      simp only [List.cons_append, lookupStore, hp, if_false]
      exact ih h

theorem lookupStore_insert (s : Store) (k : String) (v : FileData) :
    lookupStore (removeKey k s ++ [(k, v)]) k = some v := by
  rw [lookupStore_append_right _ _ _ (lookupStore_removeKey_self k s)]
  simp [lookupStore]

/-- C6: (1) with the cache enabled, a truthy-successful payload whose
serialized entry is within the 1,000,000-byte cap round-trips:
`set` returns `true` and an immediate `get` returns the payload
unchanged; (2) `get` on an entry whose TTL has elapsed deletes the file
and reports a miss; (3) `get` on a corrupt entry deletes the file and
reports a miss. -/
theorem claim_C6 :
    (∀ (cfg : CacheConfig) (store : Store) (now : Int) (url : String)
      (data : List (String × Json)) (tt f : String),
      cfg.enabled = true →
      jsonTruthy (dictGet data "success" (.bool false)) = true →
      0 ≤ cfg.get_ttl tt →
      entrySize { url := url, data := .obj data, created_at := now, ttl := cfg.get_ttl tt,
                  ttl_type := tt, fetcher := f } ≤ 1000000 →
      (ContentCache.set cfg store now url data tt f).1 = true ∧
      ContentCache.get cfg (ContentCache.set cfg store now url data tt f).2 now url =
        (some (.obj data), (ContentCache.set cfg store now url data tt f).2))
  ∧ (∀ (cfg : CacheConfig) (store : Store) (now : Int) (url : String) (e : CacheEntry),
      cfg.enabled = true →
      lookupStore store (_url_to_key url) = some (.entry e) →
      e.created_at + e.ttl < now →
      ContentCache.get cfg store now url = (none, removeKey (_url_to_key url) store) ∧
      lookupStore (removeKey (_url_to_key url) store) (_url_to_key url) = none)
  ∧ (∀ (cfg : CacheConfig) (store : Store) (now : Int) (url : String) (n : Nat),
      cfg.enabled = true →
      lookupStore store (_url_to_key url) = some (.invalid n) →
      ContentCache.get cfg store now url = (none, removeKey (_url_to_key url) store) ∧
      lookupStore (removeKey (_url_to_key url) store) (_url_to_key url) = none) := by
  refine ⟨?_, ?_, ?_⟩
  · intro cfg store now url data tt f hen htr httl hsz
    have hset : ContentCache.set cfg store now url data tt f =
        (true, removeKey (_url_to_key url) (_enforce_limits cfg now store) ++
          [(_url_to_key url,
            .entry { url := url, data := .obj data, created_at := now,
                     ttl := cfg.get_ttl tt, ttl_type := tt, fetcher := f })]) := by
      unfold ContentCache.set
      rw [if_neg (by simp [hen]), if_neg (by simp [htr]), if_neg (by omega)]
    rw [hset]
    refine ⟨by trivial, ?_⟩
    unfold ContentCache.get
    rw [if_neg (by simp [hen])]
    simp only [lookupStore_insert]
    rw [if_neg (by omega)]
  · intro cfg store now url e hen hlook hexp
    unfold ContentCache.get
    rw [if_neg (by simp [hen])]
    simp only [hlook]
    rw [if_pos hexp]
    exact ⟨rfl, lookupStore_removeKey_self _ _⟩
  · intro cfg store now url n hen hlook
    unfold ContentCache.get
    rw [if_neg (by simp [hen])]
    simp only [hlook]
    exact ⟨by trivial, lookupStore_removeKey_self _ _⟩

theorem claim_C6_witness :
    (({} : CacheConfig).enabled = true
      ∧ jsonTruthy (dictGet [("success", Json.bool true)] "success" (.bool false)) = true
      ∧ 0 ≤ ({} : CacheConfig).get_ttl "content"
      ∧ entrySize { url := "https://example.com", data := .obj [("success", Json.bool true)],
                    created_at := 7, ttl := ({} : CacheConfig).get_ttl "content",
                    ttl_type := "content", fetcher := "" } ≤ 1000000)
    ∧ ((ContentCache.set {} [] 7 "https://example.com" [("success", Json.bool true)]
          "content" "").1 = true
      ∧ ContentCache.get {}
          (ContentCache.set {} [] 7 "https://example.com" [("success", Json.bool true)]
            "content" "").2 7 "https://example.com" =
          (some (.obj [("success", Json.bool true)]),
           (ContentCache.set {} [] 7 "https://example.com" [("success", Json.bool true)]
             "content" "").2)) :=
  ⟨⟨rfl, rfl, by decide, by decide⟩,
   claim_C6.1 {} [] 7 "https://example.com" [("success", Json.bool true)] "content" ""
     rfl rfl (by decide) (by decide)⟩

/-- The fixed successful payload used by the eviction scenario. -/
def wData : List (String × Json) := [("success", Json.bool true)]

/-- The `CacheEntry` that writing `(url, t)` with payload `wData` and the
content TTL produces. -/
abbrev mkEntry (cfg : CacheConfig) (w : String × Int) : CacheEntry :=
  { url := w.1, data := .obj wData, created_at := w.2, ttl := cfg.get_ttl "content",
    ttl_type := "content", fetcher := "" }

/-- The directory entry that writing `(url, t)` produces. -/
def writeEntry (cfg : CacheConfig) (w : String × Int) : String × FileData :=
  (_url_to_key w.1, .entry (mkEntry cfg w))

/-- Perform a sequence of `ContentCache.set` writes, each at its own
timestamp, threading the directory state. -/
def setAll (cfg : CacheConfig) : Store → List (String × Int) → Store
  | s, [] => s
  | s, w :: rest => setAll cfg (ContentCache.set cfg s w.2 w.1 wData "content" "").2 rest

theorem countEvictFuel_stop (maxE fuel : Nat) (s : Store) (h : s.length < maxE) :
    countEvictFuel maxE fuel s = s := by
  cases fuel with
  | zero => rfl
  | succ f =>
    simp only [countEvictFuel]
    rw [if_neg]
    exact fun hc => absurd hc.1 (Nat.not_le.mpr h)

theorem countEvict_stop (maxE : Nat) (s : Store) (h : s.length < maxE) :
    countEvict maxE s = s := countEvictFuel_stop maxE s.length s h

theorem countEvict_once (maxE : Nat) (s t : Store) (hlen : s.length = maxE)
    (h1 : 1 ≤ maxE) (hrm : removeOldest s = t) (hlt : t.length < maxE) :
    countEvict maxE s = t := by
  unfold countEvict
  obtain ⟨f, hf⟩ : ∃ f, s.length = f + 1 := ⟨maxE - 1, by omega⟩
  rw [hf]
  simp only [countEvictFuel]
  rw [if_pos ⟨by omega, by
    cases s with
    | nil => simp at hf
    | cons a l => simp⟩]
  rw [hrm]
  exact countEvictFuel_stop maxE f t (by omega)

theorem sizeEvictFuel_stop (maxB fuel : Nat) (s : Store) (h : totalSize s ≤ maxB) :
    sizeEvictFuel maxB fuel s = s := by
  cases fuel with
  | zero => rfl
  | succ f =>
    simp only [sizeEvictFuel]
    rw [if_neg]
    exact fun hc => absurd hc.1 (Nat.not_lt.mpr h)

theorem sizeEvict_stop (maxB : Nat) (s : Store) (h : totalSize s ≤ maxB) :
    sizeEvict maxB s = s := sizeEvictFuel_stop maxB s.length s h

theorem cleanupExpired_id (now : Int) (s : Store)
    (h : ∀ p ∈ s, fileExpired now p.2 = false) : cleanupExpired now s = s :=
  List.filter_eq_self.mpr fun p hp => by simp [h p hp]

theorem removeKey_id (k : String) (s : Store) (h : ∀ p ∈ s, p.1 ≠ k) :
    removeKey k s = s :=
  List.filter_eq_self.mpr fun p hp => by simp only [decide_eq_true_eq]; exact h p hp

theorem removeOldest_cons_of_strict (k : String) (f : FileData) (rest : Store)
    (h : ∀ p ∈ rest, fileCreated f < fileCreated p.2) :
    removeOldest ((k, f) :: rest) = rest := by
  unfold removeOldest
  rw [if_pos]
  exact List.all_eq_true.mpr fun p hp => by
    simp only [decide_eq_true_eq]
    exact le_of_lt (h p hp)

theorem totalSize_map_writeEntry (cfg : CacheConfig) (ws : List (String × Int)) :
    totalSize (ws.map (writeEntry cfg)) =
      (ws.map (fun w => entrySize (mkEntry cfg w))).sum := by
  simp only [totalSize, List.map_map]
  congr 1

theorem set_step (cfg : CacheConfig) (hen : cfg.enabled = true) (s : Store)
    (w : String × Int) (hsz : entrySize (mkEntry cfg w) ≤ 1000000) :
    ContentCache.set cfg s w.2 w.1 wData "content" "" =
      (true, removeKey (_url_to_key w.1) (_enforce_limits cfg w.2 s) ++ [writeEntry cfg w]) := by
  unfold ContentCache.set
  rw [if_neg (by simp [hen]), if_neg (by decide)]
  exact if_neg (not_lt.mpr hsz)

theorem setAll_append (cfg : CacheConfig) (a b : List (String × Int)) :
    ∀ s : Store, setAll cfg s (a ++ b) = setAll cfg (setAll cfg s a) b := by
  induction a with
  | nil => intro s; rfl
  | cons w rest ih => intro s; simp only [List.cons_append, setAll]; exact ih _

theorem setAll_fill (cfg : CacheConfig) (hen : cfg.enabled = true) :
    ∀ (cur pre : List (String × Int)),
      (pre ++ cur).length ≤ cfg.max_entries →
      ((pre ++ cur).map (fun w => _url_to_key w.1)).Nodup →
      (∀ w ∈ cur, ∀ w' ∈ pre ++ cur, ¬ (w'.2 + cfg.get_ttl "content" < w.2)) →
      (∀ w ∈ cur, entrySize (mkEntry cfg w) ≤ 1000000) →
      ((pre ++ cur).map (fun w => entrySize (mkEntry cfg w))).sum ≤
        cfg.max_size_mb * 1024 * 1024 →
      setAll cfg (pre.map (writeEntry cfg)) cur = (pre ++ cur).map (writeEntry cfg) := by
  intro cur
  induction cur with
  | nil => intro pre _ _ _ _ _; simp [setAll]
  | cons w rest ih =>
    intro pre hlen hnd hfr hsza htot
    have hplen : pre.length < cfg.max_entries := by
      have h2 := hlen
      simp only [List.length_append, List.length_cons] at h2
      omega
    have hclean : cleanupExpired w.2 (pre.map (writeEntry cfg)) =
        pre.map (writeEntry cfg) := by
      apply cleanupExpired_id
      intro p hp
      obtain ⟨w', hw', rfl⟩ := List.mem_map.mp hp
      have hfw := hfr w (by simp) w' (List.mem_append_left _ hw')
      simp [writeEntry, fileExpired, mkEntry, hfw]
    have hcnt : countEvict cfg.max_entries (pre.map (writeEntry cfg)) =
        pre.map (writeEntry cfg) :=
      countEvict_stop _ _ (by simpa using hplen)
    have hsub : ((pre.map (fun q => entrySize (mkEntry cfg q))).sum ≤
        ((pre ++ w :: rest).map (fun q => entrySize (mkEntry cfg q))).sum) :=
      List.Sublist.sum_le_sum
        ((List.sublist_append_left pre (w :: rest)).map _) (fun a _ => Nat.zero_le a)
    have hsize : sizeEvict (cfg.max_size_mb * 1024 * 1024) (pre.map (writeEntry cfg)) =
        pre.map (writeEntry cfg) := by
      apply sizeEvict_stop
      rw [totalSize_map_writeEntry]
      exact le_trans hsub htot
    have henf : _enforce_limits cfg w.2 (pre.map (writeEntry cfg)) =
        pre.map (writeEntry cfg) := by
      unfold _enforce_limits
      rw [hclean, hcnt, hsize]
    have hd : (pre.map (fun q => _url_to_key q.1)).Disjoint
        ((w :: rest).map (fun q => _url_to_key q.1)) :=
      List.disjoint_of_nodup_append (by simpa [List.map_append] using hnd)
    have hrk : removeKey (_url_to_key w.1) (pre.map (writeEntry cfg)) =
        pre.map (writeEntry cfg) := by
      apply removeKey_id
      intro p hp
      obtain ⟨w', hw', rfl⟩ := List.mem_map.mp hp
      have h1 : _url_to_key w'.1 ∈ pre.map (fun q => _url_to_key q.1) :=
        List.mem_map_of_mem _ hw'
      have h2 : _url_to_key w.1 ∈ (w :: rest).map (fun q => _url_to_key q.1) := by simp
      simp only [writeEntry]
      intro he
      rw [he] at h1
      exact hd h1 h2
    have hstep : (ContentCache.set cfg (pre.map (writeEntry cfg)) w.2 w.1 wData
        "content" "").2 = (pre ++ [w]).map (writeEntry cfg) := by
      rw [set_step cfg hen _ w (hsza w (by simp))]
      show removeKey (_url_to_key w.1) (_enforce_limits cfg w.2 (pre.map (writeEntry cfg)))
          ++ [writeEntry cfg w] = _
      rw [henf, hrk]
      simp
    rw [setAll, hstep]
    have hre : pre ++ w :: rest = (pre ++ [w]) ++ rest := by simp
    rw [hre] at hlen hnd htot ⊢
    refine ih (pre ++ [w]) hlen hnd ?_ ?_ htot
    · intro a ha w' hw'
      refine hfr a (List.mem_cons_of_mem _ ha) w' ?_
      rw [hre]
      exact hw'
    · intro a ha
      exact hsza a (List.mem_cons_of_mem _ ha)

/-- C7: eviction is strict oldest-first by `created_at`.  (1) Writing
`max_entries + 1` distinct non-expiring URLs at strictly increasing
times into an empty cache leaves exactly `max_entries` entries, namely
all written entries except the single oldest-inserted one; (2) on any
at-capacity fresh directory whose head is strictly oldest,
`_enforce_limits` (purge expired, then count-evict oldest-first, then
size-evict) removes exactly that head. -/
theorem claim_C7 (cfg : CacheConfig) (writes : List (String × Int))
    (hen : cfg.enabled = true)
    (hmax : 1 ≤ cfg.max_entries)
    (hlen : writes.length = cfg.max_entries + 1)
    (hkeys : (writes.map (fun w => _url_to_key w.1)).Nodup)
    (htimes : List.Chain' (fun a b => a < b) (writes.map Prod.snd))
    (hfresh : ∀ w ∈ writes, ∀ w' ∈ writes, ¬ (w.2 + cfg.get_ttl "content" < w'.2))
    (hsz : ∀ w ∈ writes, entrySize (mkEntry cfg w) ≤ 1000000)
    (htot : (writes.map (fun w => entrySize (mkEntry cfg w))).sum ≤
      cfg.max_size_mb * 1024 * 1024) :
    (setAll cfg [] writes = (writes.drop 1).map (writeEntry cfg) ∧
     (setAll cfg [] writes).length = cfg.max_entries) ∧
    (∀ (now : Int) (k : String) (f : FileData) (rest : Store),
      (∀ p ∈ (k, f) :: rest, fileExpired now p.2 = false) →
      rest.length + 1 = cfg.max_entries →
      (∀ p ∈ rest, fileCreated f < fileCreated p.2) →
      totalSize rest ≤ cfg.max_size_mb * 1024 * 1024 →
      _enforce_limits cfg now ((k, f) :: rest) = rest) := by
  constructor
  · obtain hnil | ⟨front, wlast, hw⟩ := List.eq_nil_or_concat writes
    · rw [hnil] at hlen
      simp at hlen
    rw [List.concat_eq_append] at hw
    subst hw
    have hfl : front.length = cfg.max_entries := by
      simp only [List.length_append, List.length_cons, List.length_nil] at hlen
      omega
    obtain ⟨f0, ftail, rfl⟩ : ∃ f0 ftail, front = f0 :: ftail := by
      cases front with
      | nil => rw [List.length_nil] at hfl; omega
      | cons a l => exact ⟨a, l, rfl⟩
    have hsubfront : (f0 :: ftail).Sublist ((f0 :: ftail) ++ [wlast]) :=
      List.sublist_append_left _ _
    have h1 : setAll cfg [] (f0 :: ftail) = (f0 :: ftail).map (writeEntry cfg) := by
      have hfill := setAll_fill cfg hen (f0 :: ftail) []
        (by simpa using le_of_eq hfl)
        (by
          simp only [List.nil_append]
          exact List.Nodup.sublist (hsubfront.map _) hkeys)
        (by
          intro w hw w' hw'
          simp only [List.nil_append] at hw'
          exact hfresh w' (hsubfront.subset hw') w (hsubfront.subset hw))
        (fun w hw => hsz w (hsubfront.subset hw))
        (by
          simp only [List.nil_append]
          exact le_trans
            (List.Sublist.sum_le_sum (hsubfront.map _) (fun a _ => Nat.zero_le a)) htot)
      simpa using hfill
    have hlast : wlast ∈ (f0 :: ftail) ++ [wlast] := by simp
    have hclean2 : cleanupExpired wlast.2 ((f0 :: ftail).map (writeEntry cfg)) =
        (f0 :: ftail).map (writeEntry cfg) := by
      apply cleanupExpired_id
      intro p hp
      obtain ⟨w', hw', rfl⟩ := List.mem_map.mp hp
      have hfw := hfresh w' (hsubfront.subset hw') wlast hlast
      simp [writeEntry, fileExpired, mkEntry, hfw]
    have hpair : List.Pairwise (fun a b => a < b)
        (((f0 :: ftail) ++ [wlast]).map Prod.snd) :=
      List.chain'_iff_pairwise.mp htimes
    have hheadlt : ∀ b ∈ (ftail ++ [wlast]).map Prod.snd, f0.2 < b := by
      have := hpair
      simp only [List.cons_append, List.map_cons, List.pairwise_cons] at this
      exact fun b hb => this.1 b (by simpa using hb)
    have hstrict : ∀ p ∈ ftail.map (writeEntry cfg),
        fileCreated (.entry (mkEntry cfg f0)) < fileCreated p.2 := by
      intro p hp
      obtain ⟨w', hw', rfl⟩ := List.mem_map.mp hp
      have : f0.2 < w'.2 := hheadlt w'.2 (by
        simp only [List.map_append]
        exact List.mem_append_left _ (List.mem_map_of_mem _ hw'))
      simpa [writeEntry, fileCreated, mkEntry] using this
    have hone : countEvict cfg.max_entries ((f0 :: ftail).map (writeEntry cfg)) =
        ftail.map (writeEntry cfg) := by
      apply countEvict_once _ _ _ (by simpa using hfl) hmax _
        (by
          simp only [List.length_map]
          simp only [List.length_cons] at hfl
          omega)
      rw [List.map_cons, show writeEntry cfg f0 =
        (_url_to_key f0.1, .entry (mkEntry cfg f0)) from rfl]
      exact removeOldest_cons_of_strict _ _ _ hstrict
    have hsubtail : ftail.Sublist ((f0 :: ftail) ++ [wlast]) :=
      ((List.sublist_cons_self f0 ftail).trans hsubfront)
    have hsize2 : sizeEvict (cfg.max_size_mb * 1024 * 1024) (ftail.map (writeEntry cfg)) =
        ftail.map (writeEntry cfg) := by
      apply sizeEvict_stop
      rw [totalSize_map_writeEntry]
      exact le_trans (List.Sublist.sum_le_sum (hsubtail.map _) (fun a _ => Nat.zero_le a)) htot
    have henf2 : _enforce_limits cfg wlast.2 ((f0 :: ftail).map (writeEntry cfg)) =
        ftail.map (writeEntry cfg) := by
      unfold _enforce_limits
      rw [hclean2, hone, hsize2]
    have hd2 : ((f0 :: ftail).map (fun q => _url_to_key q.1)).Disjoint
        ([wlast].map (fun q => _url_to_key q.1)) :=
      List.disjoint_of_nodup_append (by simpa [List.map_append] using hkeys)
    have hrk2 : removeKey (_url_to_key wlast.1) (ftail.map (writeEntry cfg)) =
        ftail.map (writeEntry cfg) := by
      apply removeKey_id
      intro p hp
      obtain ⟨w', hw', rfl⟩ := List.mem_map.mp hp
      have h1m : _url_to_key w'.1 ∈ (f0 :: ftail).map (fun q => _url_to_key q.1) :=
        List.mem_map_of_mem _ (List.mem_cons_of_mem _ hw')
      have h2m : _url_to_key wlast.1 ∈ [wlast].map (fun q => _url_to_key q.1) := by simp
      simp only [writeEntry]
      intro he
      rw [he] at h1m
      exact hd2 h1m h2m
    have hfin : setAll cfg [] ((f0 :: ftail) ++ [wlast]) =
        (ftail ++ [wlast]).map (writeEntry cfg) := by
      rw [setAll_append cfg _ _ [], h1]
      show (ContentCache.set cfg ((f0 :: ftail).map (writeEntry cfg)) wlast.2 wlast.1
        wData "content" "").2 = _
      rw [set_step cfg hen _ wlast (hsz wlast hlast)]
      show removeKey (_url_to_key wlast.1)
          (_enforce_limits cfg wlast.2 ((f0 :: ftail).map (writeEntry cfg)))
          ++ [writeEntry cfg wlast] = _
      rw [henf2, hrk2]
      simp
    constructor
    · simpa using hfin
    · rw [hfin]
      simp only [List.length_map, List.length_append, List.length_cons, List.length_nil]
      simp only [List.length_cons] at hfl
      omega
  · intro now k f rest hfr2 hlen2 hold hsz2
    unfold _enforce_limits
    rw [cleanupExpired_id now _ hfr2]
    rw [countEvict_once cfg.max_entries _ rest (by simp only [List.length_cons]; omega)
      (by omega) (removeOldest_cons_of_strict k f rest hold) (by omega)]
    exact sizeEvict_stop _ _ hsz2

theorem claim_C7_witness :
    (({ max_entries := 1 } : CacheConfig).enabled = true
      ∧ 1 ≤ ({ max_entries := 1 } : CacheConfig).max_entries
      ∧ [("https://a.example", (0 : Int)), ("https://b.example", 1)].length =
          ({ max_entries := 1 } : CacheConfig).max_entries + 1
      ∧ ([("https://a.example", (0 : Int)), ("https://b.example", 1)].map
          (fun w => _url_to_key w.1)).Nodup)
    ∧ (setAll { max_entries := 1 } []
          [("https://a.example", (0 : Int)), ("https://b.example", 1)] =
        ([("https://a.example", (0 : Int)), ("https://b.example", 1)].drop 1).map
          (writeEntry { max_entries := 1 })
      ∧ (setAll { max_entries := 1 } []
          [("https://a.example", (0 : Int)), ("https://b.example", 1)]).length =
        ({ max_entries := 1 } : CacheConfig).max_entries) :=
  ⟨⟨rfl, by decide, rfl, by decide⟩,
   (claim_C7 { max_entries := 1 }
     [("https://a.example", (0 : Int)), ("https://b.example", 1)]
     rfl (by decide) rfl (by decide) (by norm_num [List.chain'_cons]) (by decide)
     (by decide) (by decide)).1⟩

/-- `DEFAULT_SHORTENERS` (`resolve_redirects.py` lines 32-61). -/
def DEFAULT_SHORTENERS : List String :=
  ["t.co", "bit.ly", "tinyurl.com", "goo.gl", "ow.ly", "is.gd", "buff.ly", "j.mp",
   "rb.gy", "cutt.ly", "youtu.be", "redd.it", "fb.me", "lnkd.in", "amzn.to", "amzn.eu",
   "shorturl.at", "trib.al", "dlvr.it", "spr.ly", "soo.gd", "s.id", "rebrand.ly",
   "tiny.cc", "v.gd", "shortlink.com"]

/-- The domain check of `resolve_redirects` (`resolve_redirects.py`
lines 116-119): `urlparse(url).netloc.lower()`, then strip a leading
`www.`. -/
def shortenerDomain (u : List Char) : List Char :=
  let domain := pyLowerL (pyUrlsplit u).2
  if ['w', 'w', 'w', '.'].isPrefixOf domain then domain.drop 4 else domain

/-- Outcome of the single `client.head(url)` call (`httpx` with
`follow_redirects=True`): final URL and redirect-history length on
success, or one of the caught exception classes. -/
inductive HeadOutcome where
  | ok (finalUrl : String) (history : Nat)
  | tooManyRedirects
  | timeoutExc
  | requestError (msg : String)
  | otherExc (msg : String)

/-- The result dict of `resolve_redirects`. -/
structure ResolveResult where
  success : Bool
  original_url : String
  resolved_url : String
  was_shortened : Bool
  redirects_followed : Nat
  error : Option String
deriving DecidableEq

/-- `resolve_redirects` (`resolve_redirects.py` lines 64-221) with the
default `DEFAULT_SHORTENERS` set.  The second component counts
`client.head` network requests.  The `urlparse` exception branch (lines
130-138) is unreachable for string inputs and is not modeled; exception
messages interpolated by the f-strings are carried through the
`HeadOutcome` oracle, and a `None` SSRF detail prints as `"None"` as
Python would. -/
def resolve_redirects (dns : DnsOracle) (head : HeadOutcome) (url : String)
    (max_redirects : Nat := 10) (validate_final : Bool := true) :
    ResolveResult × Nat :=
  if url.data.isEmpty then
    ({ success := false, original_url := url, resolved_url := url, was_shortened := false,
       redirects_followed := 0, error := some "Invalid URL provided" }, 0)
  else
    let u : List Char := pyStripL url.data
    if ¬ (DEFAULT_SHORTENERS.map String.data).contains (shortenerDomain u) then
      ({ success := true, original_url := ⟨u⟩, resolved_url := ⟨u⟩, was_shortened := false,
         redirects_followed := 0, error := none }, 0)
    else
      match head with
      | .ok finalUrl hist =>
        if validate_final then
          match validate_url_ssrf dns finalUrl true with
          | (true, _) =>
            ({ success := true, original_url := ⟨u⟩, resolved_url := finalUrl,
               was_shortened := true, redirects_followed := hist, error := none }, 1)
          | (false, e) =>
            ({ success := false, original_url := ⟨u⟩, resolved_url := finalUrl,
               was_shortened := true, redirects_followed := hist,
               error := some ("Resolved URL failed security validation: "
                 ++ e.getD "None") }, 1)
        else
          ({ success := true, original_url := ⟨u⟩, resolved_url := finalUrl,
             was_shortened := true, redirects_followed := hist, error := none }, 1)
      | .tooManyRedirects =>
        ({ success := false, original_url := ⟨u⟩, resolved_url := ⟨u⟩,
           was_shortened := true, redirects_followed := max_redirects,
           error := some ("Too many redirects (max: " ++ toString max_redirects ++ ")") }, 1)
      | .timeoutExc =>
        ({ success := false, original_url := ⟨u⟩, resolved_url := ⟨u⟩,
           was_shortened := true, redirects_followed := 0,
           error := some "Request timeout" }, 1)
      | .requestError m =>
        ({ success := false, original_url := ⟨u⟩, resolved_url := ⟨u⟩,
           was_shortened := true, redirects_followed := 0,
           error := some ("Request failed: " ++ m) }, 1)
      | .otherExc m =>
        ({ success := false, original_url := ⟨u⟩, resolved_url := ⟨u⟩,
           was_shortened := true, redirects_followed := 0,
           error := some ("Unexpected error: " ++ m) }, 1)

/-- C9: (1) for every URL whose domain (after stripping, lowercasing the
netloc and dropping a leading `www.`) is not a known shortener,
`resolve_redirects` returns the stripped URL unchanged with
`success = True`, `was_shortened = False`, `redirects_followed = 0` and
performs no network request; (2) for every shortener URL whose final
resolved destination fails SSRF validation, it returns
`success = False` carrying the resolved URL and an error prefixed
`Resolved URL failed security validation:`, after exactly one request. -/
theorem claim_C9 :
    (∀ (dns : DnsOracle) (head : HeadOutcome) (url : String) (mr : Nat) (vf : Bool),
      url.data.isEmpty = false →
      (DEFAULT_SHORTENERS.map String.data).contains
          (shortenerDomain (pyStripL url.data)) = false →
      resolve_redirects dns head url mr vf =
        ({ success := true, original_url := ⟨pyStripL url.data⟩,
           resolved_url := ⟨pyStripL url.data⟩, was_shortened := false,
           redirects_followed := 0, error := none }, 0))
  ∧ (∀ (dns : DnsOracle) (url finalUrl : String) (hist mr : Nat) (e : String),
      url.data.isEmpty = false →
      (DEFAULT_SHORTENERS.map String.data).contains
          (shortenerDomain (pyStripL url.data)) = true →
      validate_url_ssrf dns finalUrl true = (false, some e) →
      resolve_redirects dns (.ok finalUrl hist) url mr true =
        ({ success := false, original_url := ⟨pyStripL url.data⟩,
           resolved_url := finalUrl, was_shortened := true,
           redirects_followed := hist,
           error := some ("Resolved URL failed security validation: " ++ e) }, 1)) := by
  constructor
  · intro dns head url mr vf hne hns
    unfold resolve_redirects
    rw [if_neg (by simp [hne])]
    rw [if_pos (by simp only [hns]; exact Bool.false_ne_true)]
  · intro dns url finalUrl hist mr e hne hs hv
    unfold resolve_redirects
    rw [if_neg (by simp [hne])]
    rw [if_neg (not_not_intro hs)]
    simp only [hv, if_pos]
    simp [Option.getD]

theorem claim_C9_witness :
    ("https://example.com/page".data.isEmpty = false
      ∧ (DEFAULT_SHORTENERS.map String.data).contains
          (shortenerDomain (pyStripL "https://example.com/page".data)) = false
      ∧ resolve_redirects (fun _ => none) .timeoutExc "https://example.com/page" 10 true =
          ({ success := true, original_url := "https://example.com/page",
             resolved_url := "https://example.com/page", was_shortened := false,
             redirects_followed := 0, error := none }, 0))
    ∧ ("https://t.co/abc".data.isEmpty = false
      ∧ (DEFAULT_SHORTENERS.map String.data).contains
          (shortenerDomain (pyStripL "https://t.co/abc".data)) = true
      ∧ validate_url_ssrf (fun _ => none) "http://10.0.0.1/" true =
          (false, some "Adresse IP privee/reservee non autorisee: 10.0.0.1")
      ∧ resolve_redirects (fun _ => none) (.ok "http://10.0.0.1/" 1) "https://t.co/abc"
          10 true =
          ({ success := false, original_url := "https://t.co/abc",
             resolved_url := "http://10.0.0.1/", was_shortened := true,
             redirects_followed := 1,
             error := some ("Resolved URL failed security validation: "
               ++ "Adresse IP privee/reservee non autorisee: 10.0.0.1") }, 1)) :=
  ⟨⟨rfl, by decide,
    claim_C9.1 (fun _ => none) .timeoutExc "https://example.com/page" 10 true rfl (by decide)⟩,
   ⟨rfl, by decide, by decide,
    claim_C9.2 (fun _ => none) "https://t.co/abc" "http://10.0.0.1/" 1 10
      "Adresse IP privee/reservee non autorisee: 10.0.0.1" rfl (by decide) (by decide)⟩⟩

/-! ## Sanitizers (`sanitizers.py`)

The regexes of `sanitizers.py` are embedded as hand-compiled scanners.
Every pattern involved starts with a literal character and has
character classes disjoint from the following literal at each greedy or
optional position (checked pattern by pattern in the doc comments), so
maximal-munch scanning is exactly the backtracking behaviour of
`re.sub`/`re.findall`.  Python `\s` and `\w` are modeled by their ASCII
subsets (no theorem input contains the non-ASCII members). -/

/-- Python `re` `\s`, ASCII part: `[ \t\n\x0b\x0c\r]`. -/
def isSpaceRe (c : Char) : Bool := c.toNat = 32 ∨ (9 ≤ c.toNat ∧ c.toNat ≤ 13)

/-- Python `re` `\w`, ASCII part: `[A-Za-z0-9_]`. -/
def isWordRe (c : Char) : Bool := isAlphaAsc c ∨ isDigitAsc c ∨ c = '_'

/-- `"` or the apostrophe, the `["']` class. -/
def quoteCh (c : Char) : Bool := c = '"' ∨ c = Char.ofNat 39

/-- Case-insensitive literal prefix: `pat` is given lowercased; on a
match return the rest of the input. -/
def ciPrefixDrop : List Char → List Char → Option (List Char)
  | [], l => some l
  | _ :: _, [] => none
  | p :: ps, c :: l => if pyLowerChar c = p then ciPrefixDrop ps l else none

/-- A matcher tries a regex anchored at the head of the input; on a
match it yields the replacement to emit and the input after the match.
All matchers below consume at least one character when they match. -/
def reSubF (m : List Char → Option (List Char × List Char)) :
    Nat → List Char → List Char
  | 0, l => l
  | fuel + 1, l =>
    match l with
    | [] => []
    | c :: rest =>
      match m l with
      | some (ins, after) => ins ++ reSubF m fuel after
      | none => c :: reSubF m fuel rest

/-- `pattern.sub(...)` semantics: leftmost, non-overlapping, resume
after each match.  Fuel `l.length` suffices as every match consumes at
least one character. -/
def reSub (m : List Char → Option (List Char × List Char)) (l : List Char) : List Char :=
  reSubF m l.length l

/-- `len(pattern.findall(...))` for the same matcher discipline. -/
def reCountF (m : List Char → Option (List Char × List Char)) :
    Nat → List Char → Nat
  | 0, _ => 0
  | fuel + 1, l =>
    match l with
    | [] => 0
    | _ :: rest =>
      match m l with
      | some (_, after) => 1 + reCountF m fuel after
      | none => reCountF m fuel rest

/-- Scan for the first case-sensitive occurrence of `pat`; return the
input after it (the lazy `.*?pat`, DOTALL). -/
def findLit (pat : List Char) : Nat → List Char → Option (List Char)
  | 0, _ => none
  | fuel + 1, l =>
    if pat.isPrefixOf l then some (l.drop pat.length)
    else
      match l with
      | [] => none
      | _ :: t => findLit pat fuel t

/-- Scan for the first `</name>` (case-insensitive) or, when `alt` is
set, `/>`: the lazy `.*?(?:</name>|/>)` of the block-tag regexes.  The
two alternatives start with distinct characters, so at most one can
match at a given offset. -/
def findClose (name : List Char) (alt : Bool) : Nat → List Char → Option (List Char)
  | 0, _ => none
  | fuel + 1, l =>
    match ciPrefixDrop ('<' :: '/' :: (name ++ ['>'])) l with
    | some rest => some rest
    | none =>
      if alt ∧ ['/', '>'].isPrefixOf l then some (l.drop 2)
      else
        match l with
        | [] => none
        | _ :: t => findClose name alt fuel t

/-- `<name[\s>].*?</name>` (or with the `/>` alternative), IGNORECASE
and DOTALL: the `_RE_SCRIPT_TAG`-family removals (`sanitizers.py`
lines 352-359), replacement empty. -/
def blockM (name : List Char) (alt : Bool) (l : List Char) :
    Option (List Char × List Char) :=
  match ciPrefixDrop ('<' :: name) l with
  | none => none
  | some r1 =>
    match r1 with
    | [] => none
    | c :: r2 =>
      if isSpaceRe c ∨ c = '>' then
        match findClose name alt r2.length r2 with
        | some after => some ([], after)
        | none => none
      else none

/-- `<name[\s>].*?/?>` IGNORECASE without DOTALL (`_RE_INPUT_TAG`,
`_RE_BASE_TAG`, `_RE_META_TAG`, `_RE_LINK_TAG`, lines 358-363): the
lazy body ends at the first `>`, unreachable across a newline. -/
def gtTagM (name : List Char) (l : List Char) : Option (List Char × List Char) :=
  match ciPrefixDrop ('<' :: name) l with
  | none => none
  | some r1 =>
    match r1 with
    | [] => none
    | c :: r2 =>
      if isSpaceRe c ∨ c = '>' then
        let pre := r2.takeWhile (fun x => x ≠ '>')
        if pre.contains '\n' then none
        else
          match r2.drop pre.length with
          | '>' :: after => some ([], after)
          | _ => none
      else none

/-- `<!--.*?-->` DOTALL (`_RE_HTML_COMMENT`, line 376), replacement
empty. -/
def commentM (l : List Char) : Option (List Char × List Char) :=
  match l with
  | '<' :: '!' :: '-' :: '-' :: r =>
    (findLit ['-', '-', '>'] r.length r).map (fun after => ([], after))
  | _ => none

/-- `[\s/]+on\w+\s*=\s*["'][^"']*["']` IGNORECASE
(`_RE_EVENT_HANDLER`, line 366), replacement empty.  Each greedy piece
is disjoint from what follows it (`[\s/]` vs `o`, `\w` vs `\s`/`=`,
`\s` vs `["']`, `[^"']` vs `["']`), so maximal munch is faithful. -/
def eventHandlerQuotedM (l : List Char) : Option (List Char × List Char) :=
  let ws := l.takeWhile (fun c => isSpaceRe c ∨ c = '/')
  if ws.isEmpty then none
  else
    match ciPrefixDrop ['o', 'n'] (l.drop ws.length) with
    | none => none
    | some r2 =>
      let w := r2.takeWhile isWordRe
      if w.isEmpty then none
      else
        match (r2.drop w.length).dropWhile isSpaceRe with
        | '=' :: r4 =>
          match r4.dropWhile isSpaceRe with
          | q :: r6 =>
            if quoteCh q then
              let v := r6.takeWhile (fun c => ¬ quoteCh c)
              match r6.drop v.length with
              | q2 :: r7 => if quoteCh q2 then some ([], r7) else none
              | [] => none
            else none
          | [] => none
        | _ => none

/-- `[\s/]+on\w+\s*=\s*\S+` IGNORECASE (`_RE_EVENT_HANDLER_UNQUOTED`,
line 367), replacement empty. -/
def eventHandlerUnquotedM (l : List Char) : Option (List Char × List Char) :=
  let ws := l.takeWhile (fun c => isSpaceRe c ∨ c = '/')
  if ws.isEmpty then none
  else
    match ciPrefixDrop ['o', 'n'] (l.drop ws.length) with
    | none => none
    | some r2 =>
      let w := r2.takeWhile isWordRe
      if w.isEmpty then none
      else
        match (r2.drop w.length).dropWhile isSpaceRe with
        | '=' :: r4 =>
          let r5 := r4.dropWhile isSpaceRe
          let v := r5.takeWhile (fun c => ¬ isSpaceRe c)
          if v.isEmpty then none else some ([], r5.drop v.length)
        | _ => none

/-- `x\s*y\s*z...`: the scheme letters interleaved with `\s*`
(tab/whitespace-bypass protection); `pat` is the lowercased letters.
No `\s*` is consumed after the final letter (the enclosing patterns
continue with their own `\s*`). -/
def interleavedCi : List Char → List Char → Option (List Char)
  | [], l => some l
  | p :: ps, l =>
    match l with
    | [] => none
    | c :: r =>
      if pyLowerChar c = p then
        if ps.isEmpty then some r else interleavedCi ps (r.dropWhile isSpaceRe)
      else none

/-- The `(?:j\s*a\s*v\s*a\s*s\s*c\s*r\s*i\s*p\s*t|v\s*b\s*s\s*c\s*r\s*i\s*p\s*t)`
alternation of `_RE_MD_JAVASCRIPT_LINK` (line 390); the alternatives
start with distinct letters. -/
def mdJsSchemeM (l : List Char) : Option (List Char) :=
  match interleavedCi "javascript".data l with
  | some r => some r
  | none => interleavedCi "vbscript".data l

/-- `\[([^\]]*)\]\(\s*SCHEME\s*:[^)]*\)` IGNORECASE
(`_RE_MD_JAVASCRIPT_LINK` / `_RE_MD_VBSCRIPT_LINK` / `_RE_MD_DATA_LINK`,
lines 389-394) with replacement `\1` (the link text). -/
def mdLinkM (schemeM : List Char → Option (List Char)) (l : List Char) :
    Option (List Char × List Char) :=
  match l with
  | '[' :: r1 =>
    let txt := r1.takeWhile (fun c => c ≠ ']')
    match r1.drop txt.length with
    | ']' :: '(' :: r2 =>
      match schemeM (r2.dropWhile isSpaceRe) with
      | some r3 =>
        match r3.dropWhile isSpaceRe with
        | ':' :: r4 =>
          let body := r4.takeWhile (fun c => c ≠ ')')
          match r4.drop body.length with
          | ')' :: r5 => some (txt, r5)
          | _ => none
        | _ => none
      | none => none
    | _ => none
  | _ => none

/-- The attribute-name alternation of `_RE_JAVASCRIPT_URI` (line 371);
the alternatives start with distinct letters.  Returns the matched
original-case text (for the `\1` backreference) and the rest. -/
def tryAttrNames : List (List Char) → List Char → Option (List Char × List Char)
  | [], _ => none
  | n :: ns, l =>
    match ciPrefixDrop n l with
    | some r => some (l.take n.length, r)
    | none => tryAttrNames ns l

/-- `(href|src|action|formaction|data)\s*=\s*["']?\s*(?:SCHEMES)\s*:`
IGNORECASE (`_RE_JAVASCRIPT_URI`, lines 370-373) with replacement
`\1=`.  The scheme alternation adds `d\s*a\s*t\s*a`; first letters
`j`/`v`/`d` are distinct. -/
def jsUriM (l : List Char) : Option (List Char × List Char) :=
  match tryAttrNames
      ["href".data, "src".data, "action".data, "formaction".data, "data".data] l with
  | none => none
  | some (orig, r1) =>
    match r1.dropWhile isSpaceRe with
    | '=' :: r3 =>
      let r4 := r3.dropWhile isSpaceRe
      let r5 := match r4 with
        | q :: rq => if quoteCh q then rq else r4
        | [] => r4
      let r6 := r5.dropWhile isSpaceRe
      let sch := match interleavedCi "javascript".data r6 with
        | some r => some r
        | none =>
          match interleavedCi "vbscript".data r6 with
          | some r => some r
          | none => interleavedCi "data".data r6
      match sch with
      | some r7 =>
        match r7.dropWhile isSpaceRe with
        | ':' :: r8 => some (orig ++ ['='], r8)
        | _ => none
      | none => none
    | _ => none

/-- `sanitize_markdown` (`sanitizers.py` lines 516-570). -/
def sanitize_markdown (content : String) : String :=
  if content.data.isEmpty then ""
  else
    let r := content.data
    let r := reSub (blockM "script".data false) r
    let r := reSub (blockM "style".data false) r
    let r := reSub (blockM "iframe".data true) r
    let r := reSub (blockM "object".data true) r
    let r := reSub (blockM "embed".data true) r
    let r := reSub (blockM "svg".data false) r
    let r := reSub (blockM "form".data true) r
    let r := reSub eventHandlerQuotedM r
    let r := reSub eventHandlerUnquotedM r
    let r := reSub (mdLinkM mdJsSchemeM) r
    let r := reSub (mdLinkM (ciPrefixDrop "vbscript".data)) r
    let r := reSub (mdLinkM (ciPrefixDrop "data".data)) r
    let r := reSub commentM r
    let r := reSub jsUriM r
    ⟨r⟩

/-- `SAFE_HTML_TAGS` (`sanitizers.py` lines 305-342). -/
def SAFE_HTML_TAGS : List String :=
  ["p", "a", "b", "i", "em", "strong", "ul", "ol", "li", "br", "h1", "h2", "h3",
   "h4", "h5", "h6", "pre", "code", "blockquote", "span", "div", "hr", "dl", "dt",
   "dd", "table", "thead", "tbody", "tr", "th", "td", "sup", "sub", "abbr"]

/-- `SAFE_HTML_ATTRIBUTES.get(tag_name, frozenset())`
(`sanitizers.py` lines 345-349); `img` maps to the empty set like the
default. -/
def safeAttrsFor (tag : List Char) : List (List Char) :=
  if tag = "a".data then ["href".data, "title".data]
  else if tag = "abbr".data then ["title".data]
  else []

/-- A restricted model of `html.unescape`: the five XML entities and
decimal/hex numeric references, all requiring the closing `;`, decoded
when they denote a Unicode scalar value; anything else is left as
written.  No theorem input contains `&`, so the omitted named entities
and the lenient semicolon-less forms of the stdlib are never hit. -/
def entAt (r : List Char) : Option (Char × List Char) :=
  if "amp;".data.isPrefixOf r then some ('&', r.drop 4)
  else if "lt;".data.isPrefixOf r then some ('<', r.drop 3)
  else if "gt;".data.isPrefixOf r then some ('>', r.drop 3)
  else if "quot;".data.isPrefixOf r then some ('"', r.drop 5)
  else if "apos;".data.isPrefixOf r then some (Char.ofNat 39, r.drop 5)
  else
    match r with
    | '#' :: rest =>
      let (digs, after, base) :=
        match rest with
        | 'x' :: rx => (rx.takeWhile isHexDigitAsc, (rx.takeWhile isHexDigitAsc).length, 16)
        | 'X' :: rx => (rx.takeWhile isHexDigitAsc, (rx.takeWhile isHexDigitAsc).length, 16)
        | _ => (rest.takeWhile isDigitAsc, (rest.takeWhile isDigitAsc).length, 10)
      let tail := if base = 16 then (rest.drop 1).drop after else rest.drop after
      if digs.isEmpty then none
      else
        match tail with
        | ';' :: r2 =>
          let v := if base = 16 then hextetsVal digs else digitsVal digs
          if v < 55296 ∨ (57344 ≤ v ∧ v ≤ 1114111) then some (Char.ofNat v, r2)
          else none
        | _ => none
    | _ => none

def pyHtmlUnescapeF : Nat → List Char → List Char
  | 0, l => l
  | fuel + 1, l =>
    match l with
    | [] => []
    | '&' :: r =>
      match entAt r with
      | some (c, after) => c :: pyHtmlUnescapeF fuel after
      | none => '&' :: pyHtmlUnescapeF fuel r
    | c :: r => c :: pyHtmlUnescapeF fuel r

def pyHtmlUnescape (l : List Char) : List Char := pyHtmlUnescapeF l.length l

/-- One `_RE_ATTR_PATTERN` match
(`(\w+)(?:\s*=\s*(?:"([^"]*)"|'([^']*)'|(\S+)))?`, lines 382-385),
anchored at the head: name, optional value (`none` when the whole
optional group fails, in which case scanning resumes right after the
name), and the rest.  When a quoted alternative has no closing quote
the `\S+` alternative takes over from the value start, quote
included. -/
def attrTokenM (l : List Char) : Option ((List Char × Option (List Char)) × List Char) :=
  let name := l.takeWhile isWordRe
  if name.isEmpty then none
  else
    let r1 := l.drop name.length
    let unq : List Char → Option ((List Char × Option (List Char)) × List Char) :=
      fun r4 =>
        let v := r4.takeWhile (fun c => ¬ isSpaceRe c)
        if v.isEmpty then some ((name, none), r1)
        else some ((name, some v), r4.drop v.length)
    match r1.dropWhile isSpaceRe with
    | '=' :: r3 =>
      let r4 := r3.dropWhile isSpaceRe
      match r4 with
      | c :: rq =>
        if c = '"' then
          let v := rq.takeWhile (fun x => x ≠ '"')
          match rq.drop v.length with
          | '"' :: r5 => some ((name, some v), r5)
          | _ => unq r4
        else if c = Char.ofNat 39 then
          let v := rq.takeWhile (fun x => x ≠ Char.ofNat 39)
          match rq.drop v.length with
          | _ :: r5 => some ((name, some v), r5)
          | _ => unq r4
        else unq r4
      | [] => some ((name, none), r1)
    | _ => some ((name, none), r1)

/-- `_RE_ATTR_PATTERN.finditer` (`_filter_attributes` line 490). -/
def attrScanF : Nat → List Char → List (List Char × Option (List Char))
  | 0, _ => []
  | fuel + 1, l =>
    match l with
    | [] => []
    | _ :: rest =>
      match attrTokenM l with
      | some (tok, after) => tok :: attrScanF fuel after
      | none => attrScanF fuel rest

/-- `_filter_attributes` (`sanitizers.py` lines 476-513). -/
def _filter_attributes (attrs_str : List Char) (allowed : List (List Char)) :
    List Char :=
  let parts := (attrScanF attrs_str.length attrs_str).filterMap (fun tok =>
    let attr_name := pyLowerL tok.1
    if ¬ allowed.contains attr_name then none
    else
      let value := tok.2.getD []
      let value_lower := pyLowerL (pyHtmlUnescape (pyStripL value))
      if "javascript:".data.isPrefixOf value_lower
          ∨ "vbscript:".data.isPrefixOf value_lower
          ∨ "data:".data.isPrefixOf value_lower then none
      else if ¬ value.isEmpty then
        some (attr_name ++ '=' :: '"' :: pyReplaceL ['"'] "&quot;".data value ++ ['"'])
      else some attr_name)
  match parts with
  | [] => []
  | _ => ' ' :: (parts.intersperse [' ']).flatten

/-- `_RE_HTML_TAG` (`<(/?)(\w+)(\s[^>]*)?>`, line 379) substituted
through `_filter_tag` (`sanitize_html` lines 452-471): unsafe tags are
stripped, safe tags keep only their allowed attributes and are emitted
lowercased. -/
def htmlTagM (l : List Char) : Option (List Char × List Char) :=
  match l with
  | '<' :: r1 =>
    let (closing, r2) :=
      match r1 with
      | '/' :: r => (true, r)
      | _ => (false, r1)
    let w := r2.takeWhile isWordRe
    if w.isEmpty then none
    else
      let build : List Char → List Char := fun attrs =>
        let tag_name := pyLowerL w
        if ¬ (SAFE_HTML_TAGS.map String.data).contains tag_name then []
        else
          let safe_attrs := safeAttrsFor tag_name
          if ¬ attrs.isEmpty ∧ ¬ safe_attrs.isEmpty then
            '<' :: ((if closing then ['/'] else []) ++ tag_name
              ++ _filter_attributes attrs safe_attrs ++ ['>'])
          else
            '<' :: ((if closing then ['/'] else []) ++ tag_name ++ ['>'])
      match r2.drop w.length with
      | '>' :: r4 => some (build [], r4)
      | c :: r4 =>
        if isSpaceRe c then
          let a := r4.takeWhile (fun x => x ≠ '>')
          match r4.drop a.length with
          | '>' :: r5 => some (build (c :: a), r5)
          | _ => none
        else none
      | [] => none
  | _ => none

/-- `sanitize_html` (`sanitizers.py` lines 397-473). -/
def sanitize_html (content : String) : String :=
  if content.data.isEmpty then ""
  else
    let r := pyHtmlUnescape content.data
    let r := reSub commentM r
    let r := reSub (blockM "script".data false) r
    let r := reSub (blockM "style".data false) r
    let r := reSub (blockM "iframe".data true) r
    let r := reSub (blockM "object".data true) r
    let r := reSub (blockM "embed".data true) r
    let r := reSub (blockM "form".data true) r
    let r := reSub (gtTagM "input".data) r
    let r := reSub (blockM "svg".data false) r
    let r := reSub (blockM "math".data false) r
    let r := reSub (gtTagM "base".data) r
    let r := reSub (gtTagM "meta".data) r
    let r := reSub (gtTagM "link".data) r
    let r := reSub eventHandlerQuotedM r
    let r := reSub eventHandlerUnquotedM r
    let r := reSub jsUriM r
    let r := reSub htmlTagM r
    ⟨r⟩

/-- `<[a-zA-Z][^>]*>`: the HTML-likeness counter of `sanitize_content`
(line 613). -/
def htmlTagLikeM (l : List Char) : Option (List Char × List Char) :=
  match l with
  | '<' :: c :: r =>
    if isAlphaAsc c then
      let a := r.takeWhile (fun x => x ≠ '>')
      match r.drop a.length with
      | '>' :: rest => some ([], rest)
      | _ => none
    else none
  | _ => none

/-- `^#{1,6}\s` under MULTILINE, assuming the scan position is at a
line start: a run of 1-6 `#` followed by `\s` (a run of 7 or more can
never backtrack into a match since the character after any shorter
prefix is `#`).  Returns the rest after the match. -/
def mdHashM (l : List Char) : Option (List Char) :=
  let hs := l.takeWhile (fun c => c = '#')
  if hs.isEmpty ∨ 6 < hs.length then none
  else
    match l.drop hs.length with
    | c :: r => if isSpaceRe c then some r else none
    | [] => none

def lastIdxOf (c : Char) (l : List Char) : Option Nat :=
  match l.reverse.findIdx? (fun x => x == c) with
  | some k => some (l.length - 1 - k)
  | none => none

/-- `\[.+\]\(.+\)` (no DOTALL): both `.+` are greedy with
backtracking, so the regex picks the last `](` on the line that still
leaves a `)` at least two characters further, and ends at the last `)`
of the line.  Returns the rest after the match. -/
def mdBracketM (l : List Char) : Option (List Char) :=
  match l with
  | '[' :: r =>
    let line := r.takeWhile (fun c => c ≠ '\n')
    match (List.range line.length).reverse.find? (fun i =>
        decide (1 ≤ i) && (line.get? i == some ']') && (line.get? (i + 1) == some '(')
          && (line.drop (i + 3)).contains ')') with
    | some i =>
      match lastIdxOf ')' (line.drop (i + 3)) with
      | some k => some (r.drop (i + 3 + k + 1))
      | none => none
    | none => none
  | _ => none

/-- One alternative of the Markdown-likeness pattern
`(?:^#{1,6}\s|\*\*|__|\[.+\]\(.+\))` (line 615) at the scan position;
returns the consumed characters (needed to track line starts) and the
rest. -/
def mdPatM (atStart : Bool) (l : List Char) : Option (List Char × List Char) :=
  let rest? :=
    if atStart then
      match mdHashM l with
      | some rest => some rest
      | none => none
    else none
  match rest? with
  | some rest => some (l.take (l.length - rest.length), rest)
  | none =>
    if ['*', '*'].isPrefixOf l then some (l.take 2, l.drop 2)
    else if ['_', '_'].isPrefixOf l then some (l.take 2, l.drop 2)
    else
      match mdBracketM l with
      | some rest => some (l.take (l.length - rest.length), rest)
      | none => none

/-- `len(re.findall(..., content, re.MULTILINE))` for the Markdown
pattern, tracking whether each scan position follows a newline. -/
def mdCountF : Nat → Bool → List Char → Nat
  | 0, _, _ => 0
  | fuel + 1, atStart, l =>
    match l with
    | [] => 0
    | c :: rest =>
      match mdPatM atStart l with
      | some (consumed, after) =>
        1 + mdCountF fuel (consumed.getLast? == some '\n') after
      | none => mdCountF fuel (c == '\n') rest

/-- `sanitize_content` (`sanitizers.py` lines 573-631). -/
def sanitize_content (content : String) (content_format : String := "auto") : String :=
  if content.data.isEmpty then ""
  else if content_format = "html" then sanitize_html content
  else if content_format = "markdown" then sanitize_markdown content
  else if content_format = "text" then sanitize_markdown (sanitize_html content)
  else if content_format = "auto" then
    let html_tag_count := reCountF htmlTagLikeM content.data.length content.data
    let md_pattern_count := mdCountF content.data.length true content.data
    if md_pattern_count < html_tag_count ∧ 2 < html_tag_count then sanitize_html content
    else if 0 < md_pattern_count then sanitize_markdown content
    else sanitize_markdown (sanitize_html content)
  else sanitize_markdown (sanitize_html content)

/-- C3: REFUTED.  Sanitization is not idempotent: in markdown mode the
already-sanitized string `[t](javascript:v)` (the sanitizer output for
`[[t](javascript:u)](javascript:v)`, whose outer link survives because
`_RE_MD_JAVASCRIPT_LINK` consumes the inner link first) is changed
again by a second pass, to `t`. -/
theorem claim_C3 :
    sanitize_content "[[t](javascript:u)](javascript:v)" "markdown" = "[t](javascript:v)"
    ∧ sanitize_content "[t](javascript:v)" "markdown" = "t"
    ∧ sanitize_content (sanitize_content "[[t](javascript:u)](javascript:v)" "markdown")
        "markdown"
      ≠ sanitize_content "[[t](javascript:u)](javascript:v)" "markdown" := by
  refine ⟨by decide, by decide, ?_⟩
  intro h
  have h2 : sanitize_content (sanitize_content "[[t](javascript:u)](javascript:v)"
      "markdown") "markdown"
      = sanitize_content "[[t](javascript:u)](javascript:v)" "markdown" → False := by decide
  exact h2 h

end WebIntel
